import Mathlib

/-!
# omni-engineer (Go): session engine

A shallow embedding of `src/main.go`: the session state, the file and undo
handlers, the transcript save/load handlers, the streaming completion consumer
and the command dispatcher, followed by theorems about them.

Conventions.
* A Go `string` or `[]byte` is a list of bytes, each byte a natural number
  below 256 (`Str`).  Conversions between `string` and `[]byte` are the
  identity, as in Go; nothing assumes that a string is well-formed UTF-8.
* Every handler is a function from the state before the call to the state
  after it.  The state holds the package-level variables and the file system;
  what the network answers is an input of the dispatch (`Env`).
* Terminal output (`fmt.Print*`) is not part of the model.
* Loops that Go runs until the input is used up are recursive functions with a
  step bound (`fuel`) that the input length always covers.
* The operating system, the network and the Go standard library are outside
  the repository; the sections "Go standard library" and "File system" model
  their documented behaviour (`strings`, `unicode/utf8`, `encoding/json`,
  `os`, `bufio`).
-/

namespace Omni

/-! ## Go standard library: strings and UTF-8 -/

/-- A Go `string` or `[]byte`: a sequence of bytes. -/
abbrev Str := List Nat

/-- The bytes of an ASCII string literal of the source. -/
def lit (s : String) : Str := s.toList.map Char.toNat

/-- The constant `utf8.RuneError` (U+FFFD). -/
def RuneError : Nat := 0xFFFD

/-- A UTF-8 continuation byte (`locb ≤ b ≤ hicb`). -/
def isCont (b : Nat) : Bool := decide (0x80 ≤ b) && decide (b ≤ 0xBF)

/-- Go `utf8.DecodeRune`: the first rune of `p` and its width in bytes.
An empty input gives `(RuneError, 0)`, an invalid encoding `(RuneError, 1)`. -/
def DecodeRune : Str → Nat × Nat
  | [] => (RuneError, 0)
  | p0 :: rest =>
    if p0 < 0x80 then (p0, 1)
    else if p0 < 0xC2 then (RuneError, 1)
    else if p0 < 0xE0 then
      match rest with
      | b1 :: _ =>
        if isCont b1 then (p0 % 0x20 * 0x40 + b1 % 0x40, 2) else (RuneError, 1)
      | [] => (RuneError, 1)
    else if p0 < 0xF0 then
      match rest with
      | b1 :: b2 :: _ =>
        let lo := if p0 = 0xE0 then 0xA0 else 0x80
        let hi := if p0 = 0xED then 0x9F else 0xBF
        if decide (lo ≤ b1) && decide (b1 ≤ hi) && isCont b2 then
          (p0 % 0x10 * 0x1000 + b1 % 0x40 * 0x40 + b2 % 0x40, 3)
        else (RuneError, 1)
      | _ => (RuneError, 1)
    else if p0 < 0xF5 then
      match rest with
      | b1 :: b2 :: b3 :: _ =>
        let lo := if p0 = 0xF0 then 0x90 else 0x80
        let hi := if p0 = 0xF4 then 0x8F else 0xBF
        if decide (lo ≤ b1) && decide (b1 ≤ hi) && isCont b2 && isCont b3 then
          (p0 % 0x08 * 0x40000 + b1 % 0x40 * 0x1000 + b2 % 0x40 * 0x40 + b3 % 0x40, 4)
        else (RuneError, 1)
      | _ => (RuneError, 1)
    else (RuneError, 1)

/-- Go `utf8.EncodeRune` / `utf8.AppendRune`: the UTF-8 bytes of a rune;
surrogates and values above U+10FFFF are encoded as U+FFFD. -/
def EncodeRune (r : Nat) : Str :=
  if r ≤ 0x7F then [r]
  else if r ≤ 0x7FF then [0xC0 + r / 0x40, 0x80 + r % 0x40]
  else if 0x10FFFF < r ∨ (0xD800 ≤ r ∧ r ≤ 0xDFFF) then [0xEF, 0xBF, 0xBD]
  else if r ≤ 0xFFFF then [0xE0 + r / 0x1000, 0x80 + r / 0x40 % 0x40, 0x80 + r % 0x40]
  else [0xF0 + r / 0x40000, 0x80 + r / 0x1000 % 0x40, 0x80 + r / 0x40 % 0x40, 0x80 + r % 0x40]

/-- Go `utf8.RuneStart`: the byte is not a continuation byte. -/
def RuneStart (b : Nat) : Bool := !(decide (0x80 ≤ b) && decide (b < 0xC0))

/-- The search loop of `utf8.DecodeLastRune`: the offset from the end (2, 3 or
4) of the nearest rune start among the bytes before the last one, or one past
the limit when there is none.  `rev` is the input reversed, without its last
byte; `back` counts the bytes stepped over so far. -/
def lastRuneStartBack : Nat → Nat → Str → Nat
  | 0, back, _ => back + 1
  | _ + 1, back, [] => back + 1
  | n + 1, back, b :: rev =>
    if RuneStart b then back + 1 else lastRuneStartBack n (back + 1) rev

/-- Go `utf8.DecodeLastRune`: the last rune of `s` and its width. -/
def DecodeLastRune (s : Str) : Nat × Nat :=
  match s.reverse with
  | [] => (RuneError, 0)
  | last :: rev =>
    if last < 0x80 then (last, 1)
    else
      let back := min (lastRuneStartBack 3 1 rev) s.length
      let start := s.length - back
      let (r, size) := DecodeRune (s.drop start)
      if start + size ≠ s.length then (RuneError, 1) else (r, size)

/-- Go `unicode.IsSpace`: the runes with the Unicode White_Space property. -/
def IsSpace (r : Nat) : Bool :=
  decide (0x09 ≤ r ∧ r ≤ 0x0D) || r == 0x20 || r == 0x85 || r == 0xA0 || r == 0x1680
    || decide (0x2000 ≤ r ∧ r ≤ 0x200A) || r == 0x2028 || r == 0x2029 || r == 0x202F
    || r == 0x205F || r == 0x3000

/-- Go `strings.HasPrefix`. -/
def HasPrefix : Str → Str → Bool
  | _, [] => true
  | [], _ :: _ => false
  | c :: s, p :: ps => c == p && HasPrefix s ps

/-- Go `strings.TrimPrefix`: `s` without the leading `p`, or `s` itself when
`s` does not start with `p`. -/
def TrimPrefix (s p : Str) : Str :=
  if HasPrefix s p then s.drop p.length else s

/-- Go `strings.TrimLeftFunc(s, unicode.IsSpace)`, the number of steps bounded
by `fuel` (one step per rune). -/
def trimLeftSpace : Nat → Str → Str
  | 0, s => s
  | _ + 1, [] => []
  | n + 1, c :: s =>
    if IsSpace (DecodeRune (c :: s)).1 then trimLeftSpace n ((c :: s).drop (DecodeRune (c :: s)).2)
    else c :: s

/-- The loop of Go `strings.lastIndexFunc(s, unicode.IsSpace, false)`: the
start index of the last rune (decoding backwards) that is not white space. -/
def lastIndexNonSpace : Nat → Str → Option Nat
  | 0, _ => none
  | n + 1, s =>
    if s = [] then none
    else
      let i := s.length - (DecodeLastRune s).2
      if IsSpace (DecodeLastRune s).1 then lastIndexNonSpace n (s.take i) else some i

/-- Go `strings.TrimRightFunc(s, unicode.IsSpace)`. -/
def trimRightSpace (s : Str) : Str :=
  match lastIndexNonSpace s.length s with
  | none => []
  | some i =>
    if 0x80 ≤ s.getD i 0 then s.take (i + (DecodeRune (s.drop i)).2) else s.take (i + 1)

/-- Go `strings.TrimSpace`: `s` without leading and trailing white space, as
defined by Unicode. -/
def TrimSpace (s : Str) : Str := trimRightSpace (trimLeftSpace s.length s)

/-- The loop of Go `strings.FieldsFunc(s, unicode.IsSpace)`: `cur` is the field
being read, if any. -/
def fieldsLoop : Nat → Str → Option Str → List Str
  | 0, _, cur => cur.toList
  | _ + 1, [], cur => cur.toList
  | n + 1, c :: s, cur =>
    if IsSpace (DecodeRune (c :: s)).1 then
      cur.toList ++ fieldsLoop n ((c :: s).drop (DecodeRune (c :: s)).2) none
    else
      fieldsLoop n ((c :: s).drop (DecodeRune (c :: s)).2)
        (some (cur.getD [] ++ (c :: s).take (DecodeRune (c :: s)).2))

/-- Go `strings.Fields`: the maximal runs of non-white-space runes of `s`. -/
def Fields (s : Str) : List Str := fieldsLoop s.length s none

/-- Go `strings.Split(s, sep)` for a one-byte separator: the pieces of `s`
between the occurrences of `sep`; always at least one piece. -/
def Split (sep : Nat) : Str → List Str
  | [] => [[]]
  | c :: s =>
    if c = sep then [] :: Split sep s
    else
      match Split sep s with
      | f :: fs => (c :: f) :: fs
      | [] => [[c]]

/-! ## File system

The operating system's files as the program sees them through `os.Stat`,
`os.ReadFile`, `os.WriteFile`, `os.ReadDir` and `os.Open`/`Read`.  Paths are
compared as byte strings. -/

/-- What a path names: a regular file with its bytes and whether this process
may read and write it, or a directory with the entries `os.ReadDir` reports
(name and `IsDir()` of each) and whether it may be listed. -/
inductive Node where
  | file (content : Str) (readable : Bool) (writable : Bool)
  | dir (entries : List (Str × Bool)) (listable : Bool)
  deriving DecidableEq

/-- A file-system state: the node at each path, and for a path that names
nothing whether a file may be created there. -/
structure FS where
  node : Str → Option Node
  creatable : Str → Bool

/-- Go `os.Stat(path)`: `some isDir` when it succeeds (`err == nil`). -/
def FS.stat (fs : FS) (path : Str) : Option Bool :=
  match fs.node path with
  | some (Node.file _ _ _) => some false
  | some (Node.dir _ _) => some true
  | none => none

/-- Go `os.ReadFile(path)`: the whole content, or `none` on error. -/
def FS.readFile (fs : FS) (path : Str) : Option Str :=
  match fs.node path with
  | some (Node.file c true _) => some c
  | _ => none

/-- Go `os.WriteFile(path, data, 0644)`: the file system after a successful
write (the file is created if missing, truncated otherwise), or `none` on
error; a write that fails is taken to leave the files as they were. -/
def FS.writeFile (fs : FS) (path : Str) (data : Str) : Option FS :=
  match fs.node path with
  | some (Node.file _ r true) =>
    some { fs with node := fun q => if q = path then some (Node.file data r true) else fs.node q }
  | some (Node.file _ _ false) => none
  | some (Node.dir _ _) => none
  | none =>
    if fs.creatable path then
      some { fs with node := fun q => if q = path then some (Node.file data true true) else fs.node q }
    else none

/-- Go `os.ReadDir(path)`: the directory's entries, or `none` on error. -/
def FS.readDir (fs : FS) (path : Str) : Option (List (Str × Bool)) :=
  match fs.node path with
  | some (Node.dir es true) => some es
  | _ => none

/-- Go `os.Open(path)` followed by one `Read` into a 512-byte buffer: the
bytes read (the first 512 bytes of a regular file, or all of a shorter one),
or `none` when the open fails or the read fails with an error other than
`EOF` (reading a directory fails). -/
def FS.readHead (fs : FS) (path : Str) : Option Str :=
  match fs.node path with
  | some (Node.file c true _) => some (c.take 512)
  | _ => none

/-- The bytes stored at `path`, when it names a regular file. -/
def FS.content (fs : FS) (path : Str) : Option Str :=
  match fs.node path with
  | some (Node.file c _ _) => some c
  | _ => none

/-! ## Session state (`main.go` lines 17-60) -/

/-- The struct `ChatMessage`. -/
structure ChatMessage where
  Role : Str
  Content : Str
  deriving DecidableEq, Repr

/-- The zero value of `ChatMessage`. -/
def ChatMessage.zero : ChatMessage := ⟨[], []⟩

/-- A Go slice of `α`: its elements, the cells of its backing array past its
length (`spare j` is the cell at index `len + j`: a value left there by an
earlier truncation, the zero value elsewhere), and whether it is `nil` (which
only a slice without elements can be). -/
structure Slice (α : Type) where
  elems : List α
  spare : Nat → α
  isNil : Bool

/-- The `nil` slice. -/
def Slice.nil {α : Type} (zero : α) : Slice α := ⟨[], fun _ => zero, true⟩

/-- Go `append(s, x)`: `x` is stored in the cell after the last element. -/
def Slice.append {α : Type} (s : Slice α) (x : α) : Slice α :=
  ⟨s.elems ++ [x], fun j => s.spare (j + 1), false⟩

/-- The map `fileTemplates`, as the lookup `fileTemplates[key]`: a key that is
not in the map yields the empty string. -/
def fileTemplates (key : Str) : Str :=
  if key = lit "python" then
    lit "def main():\n    pass\n\nif __name__ == \"__main__\":\n    main()"
  else if key = lit "html" then
    lit "<!DOCTYPE html>\n<html lang=\"en\">\n<head>\n    <meta charset=\"UTF-8\">\n    <meta name=\"viewport\" content=\"width=device-width, initial-scale=1.0\">\n    <title>Document</title>\n</head>\n<body>\n    \n</body>\n</html>"
  else if key = lit "javascript" then
    lit "// Your JavaScript code here"
  else []

/-- The constant `SYSTEM_PROMPT`. -/
def SYSTEM_PROMPT : Str :=
  lit "You are an incredible developer assistant. You have the following traits:\n- You write clean, efficient code\n- You explain concepts with clarity\n- You think through problems step-by-step\n- You're passionate about helping developers improve"

/-- The package-level variables of `main.go` together with the file system
the handlers act on.  `OPENROUTER_API_KEY` is left out: it is read once and
only sent in the request header. -/
structure State where
  addedFiles : List Str
  chatHistory : Slice ChatMessage
  isDiffOn : Bool
  undoHistory : Str → Option Str
  DEFAULT_MODEL : Str
  fs : FS

/-- The variables after their declarations and `init()`: `chatHistory` holds
exactly the system message. -/
def State.init (fs : FS) : State :=
  { addedFiles := []
    chatHistory := (Slice.nil ChatMessage.zero).append ⟨lit "system", SYSTEM_PROMPT⟩
    isDiffOn := true
    undoHistory := fun _ => none
    DEFAULT_MODEL := lit "anthropic/claude-3.7-sonnet:thinking"
    fs := fs }

/-! ## File and undo handlers (`main.go` lines 62-219) -/

/-- The function `handleNewCommand`. -/
def handleNewCommand (st : State) (filepath : Str) : State :=
  match st.fs.stat filepath with
  | some _ => st
  | none =>
    let ext := Split 0x2E filepath
    let template := if ext.length > 1 then fileTemplates (ext.getLastD []) else []
    match st.fs.writeFile filepath template with
    | none => st
    | some fs1 => { st with fs := fs1 }

/-- The function `isTextFile`: `some true` for `(true, nil)`, `some false` for
`(false, nil)`, `none` for an error. -/
def isTextFile (fs : FS) (filepath : Str) : Option Bool :=
  match fs.readHead filepath with
  | none => none
  | some buffer => some (buffer.all fun b => b != 0)

/-- The body of the `for _, file := range files` loop of `handleAddCommand`. -/
def addEntries (fs : FS) (path : Str) : List (Str × Bool) → List Str → List Str
  | [], added => added
  | (name, isDir) :: files, added =>
    let filepath := path ++ lit "/" ++ name
    if !isDir && isTextFile fs filepath == some true then
      addEntries fs path files (added ++ [filepath])
    else addEntries fs path files added

/-- The function `handleAddCommand`. -/
def handleAddCommand (st : State) (path : Str) : State :=
  match st.fs.stat path with
  | none => st
  | some true =>
    match st.fs.readDir path with
    | none => st
    | some files => { st with addedFiles := addEntries st.fs path files st.addedFiles }
  | some false =>
    if isTextFile st.fs path == some true then
      { st with addedFiles := st.addedFiles ++ [path] }
    else st

/-- The function `handleEditCommand`. -/
def handleEditCommand (st : State) (filepath : Str) : State :=
  match st.fs.readFile filepath with
  | none => st
  | some originalContent =>
    { st with undoHistory := fun q => if q = filepath then some originalContent else st.undoHistory q }

/-- The function `handleDiffCommand`. -/
def handleDiffCommand (st : State) : State :=
  { st with isDiffOn := !st.isDiffOn }

/-- The function `handleUndoCommand`. -/
def handleUndoCommand (st : State) (filepath : Str) : State :=
  match st.undoHistory filepath with
  | none => st
  | some originalContent =>
    match st.fs.writeFile filepath originalContent with
    | none => st
    | some fs1 =>
      { st with fs := fs1, undoHistory := fun q => if q = filepath then none else st.undoHistory q }

/-- The function `handleChangeModelCommand`. -/
def handleChangeModelCommand (st : State) (newModel : Str) : State :=
  { st with DEFAULT_MODEL := newModel }

/-! ## Go standard library: `encoding/json`

`json.Unmarshal` first checks that the whole input is one well-formed JSON
value (`checkValid`) and only then stores it into the target; `parseJSON` is
the check together with the unquoting of strings, the `decode*` functions are
the store. -/

/-- A JSON value as `encoding/json` reads it; strings are unquoted, numbers
keep no payload (no target of this program has a numeric field). -/
inductive JSON where
  | null
  | bool (b : Bool)
  | num
  | str (s : Str)
  | arr (xs : List JSON)
  | obj (kvs : List (Str × JSON))

/-- The scanner's `isSpace`: space, tab, carriage return, line feed. -/
def isJSONSpace (c : Nat) : Bool := c == 0x20 || c == 0x09 || c == 0x0D || c == 0x0A

/-- Skip JSON white space. -/
def skipSpace (s : Str) : Str := s.dropWhile isJSONSpace

/-- The value of a hexadecimal digit. -/
def hexVal (c : Nat) : Option Nat :=
  if 0x30 ≤ c ∧ c ≤ 0x39 then some (c - 0x30)
  else if 0x61 ≤ c ∧ c ≤ 0x66 then some (c - 0x61 + 10)
  else if 0x41 ≤ c ∧ c ≤ 0x46 then some (c - 0x41 + 10)
  else none

/-- Go `getu4`: the value of a leading `\uXXXX` escape, if `s` starts with
one. -/
def getu4 (s : Str) : Option Nat :=
  match s with
  | c0 :: c1 :: h1 :: h2 :: h3 :: h4 :: _ =>
    if c0 = 0x5C ∧ c1 = 0x75 then
      match hexVal h1, hexVal h2, hexVal h3, hexVal h4 with
      | some a, some b, some c, some d => some (a * 0x1000 + b * 0x100 + c * 0x10 + d)
      | _, _, _, _ => none
    else none
  | _ => none

/-- Put decoded bytes in front of the rest of an unquoted string. -/
def consBytes (bs : Str) (r : Option (Str × Str)) : Option (Str × Str) :=
  r.map fun p => (bs ++ p.1, p.2)

/-- The inside of a JSON string literal, from just after the opening quote:
the scanner's validity rules (no raw control byte, only the escapes
`\" \\ \/ \b \f \n \r \t \uXXXX`) and Go `unquote` (a surrogate pair of `\u`
escapes is one rune, a lone surrogate and every invalid UTF-8 byte become
U+FFFD).  Returns the unquoted bytes and the input after the closing quote. -/
def unquoteBody : Nat → Str → Option (Str × Str)
  | 0, _ => none
  | _ + 1, [] => none
  | n + 1, c :: r =>
    if c = 0x22 then some ([], r)
    else if c = 0x5C then
      match r with
      | [] => none
      | e :: r1 =>
        if e = 0x22 ∨ e = 0x5C ∨ e = 0x2F then consBytes [e] (unquoteBody n r1)
        else if e = 0x62 then consBytes [0x08] (unquoteBody n r1)
        else if e = 0x66 then consBytes [0x0C] (unquoteBody n r1)
        else if e = 0x6E then consBytes [0x0A] (unquoteBody n r1)
        else if e = 0x72 then consBytes [0x0D] (unquoteBody n r1)
        else if e = 0x74 then consBytes [0x09] (unquoteBody n r1)
        else if e = 0x75 then
          match getu4 (c :: r) with
          | none => none
          | some rr =>
            if 0xD800 ≤ rr ∧ rr < 0xE000 then
              match getu4 (r1.drop 4) with
              | some rr1 =>
                if rr < 0xDC00 ∧ 0xDC00 ≤ rr1 ∧ rr1 < 0xE000 then
                  consBytes (EncodeRune ((rr - 0xD800) * 0x400 + (rr1 - 0xDC00) + 0x10000))
                    (unquoteBody n (r1.drop 10))
                else consBytes (EncodeRune RuneError) (unquoteBody n (r1.drop 4))
              | none => consBytes (EncodeRune RuneError) (unquoteBody n (r1.drop 4))
            else consBytes (EncodeRune rr) (unquoteBody n (r1.drop 4))
        else none
    else if c < 0x20 then none
    else if c < 0x80 then consBytes [c] (unquoteBody n r)
    else
      consBytes (EncodeRune (DecodeRune (c :: r)).1)
        (unquoteBody n ((c :: r).drop (DecodeRune (c :: r)).2))

/-- An ASCII decimal digit. -/
def isDigit (c : Nat) : Bool := decide (0x30 ≤ c) && decide (c ≤ 0x39)

/-- The exponent part of a number, if any; returns the input after it. -/
def scanExp (s : Str) : Option Str :=
  match s with
  | e :: t =>
    if e = 0x65 ∨ e = 0x45 then
      match (match t with
             | sg :: u => if sg = 0x2B ∨ sg = 0x2D then u else t
             | [] => t) with
      | d :: u => if isDigit d then some (u.dropWhile isDigit) else none
      | [] => none
    else some s
  | [] => some s

/-- The fraction and exponent parts of a number, if any. -/
def scanFrac (s : Str) : Option Str :=
  match s with
  | dot :: t =>
    if dot = 0x2E then
      match t with
      | d :: u => if isDigit d then scanExp (u.dropWhile isDigit) else none
      | [] => none
    else scanExp s
  | [] => some s

/-- A JSON number literal, `-? (0 | [1-9][0-9]*) (. [0-9]+)? ([eE] [+-]? [0-9]+)?`;
returns the input after it. -/
def scanNumber (s : Str) : Option Str :=
  match (match s with
         | m :: t => if m = 0x2D then t else s
         | [] => s) with
  | d :: t =>
    if d = 0x30 then scanFrac t
    else if isDigit d then scanFrac (t.dropWhile isDigit)
    else none
  | [] => none

/-- The scanner's `maxNestingDepth`. -/
def maxNestingDepth : Nat := 10000

mutual
/-- One JSON value at the head of the input (white space already skipped);
`depth` is the number of arrays and objects the value is nested in. -/
def parseValue : Nat → Nat → Str → Option (JSON × Str)
  | 0, _, _ => none
  | _ + 1, _, [] => none
  | n + 1, depth, c :: t =>
    if c = 0x22 then (unquoteBody t.length t).map fun p => (JSON.str p.1, p.2)
    else if c = 0x5B then
      if maxNestingDepth < depth + 1 then none
      else
        match skipSpace t with
        | [] => none
        | d :: t1 =>
          if d = 0x5D then some (JSON.arr [], t1)
          else (parseElements n (depth + 1) (d :: t1)).map fun p => (JSON.arr p.1, p.2)
    else if c = 0x7B then
      if maxNestingDepth < depth + 1 then none
      else
        match skipSpace t with
        | [] => none
        | d :: t1 =>
          if d = 0x7D then some (JSON.obj [], t1)
          else (parseMembers n (depth + 1) (d :: t1)).map fun p => (JSON.obj p.1, p.2)
    else if HasPrefix (c :: t) (lit "true") then some (JSON.bool true, t.drop 3)
    else if HasPrefix (c :: t) (lit "false") then some (JSON.bool false, t.drop 4)
    else if HasPrefix (c :: t) (lit "null") then some (JSON.null, t.drop 3)
    else (scanNumber (c :: t)).map fun r => (JSON.num, r)
/-- The elements of a non-empty array, up to and including the closing
bracket. -/
def parseElements : Nat → Nat → Str → Option (List JSON × Str)
  | 0, _, _ => none
  | n + 1, depth, s =>
    match parseValue n depth s with
    | none => none
    | some (v, r) =>
      match skipSpace r with
      | [] => none
      | d :: r1 =>
        if d = 0x2C then (parseElements n depth (skipSpace r1)).map fun p => (v :: p.1, p.2)
        else if d = 0x5D then some ([v], r1)
        else none
/-- The members of a non-empty object, up to and including the closing
brace. -/
def parseMembers : Nat → Nat → Str → Option (List (Str × JSON) × Str)
  | 0, _, _ => none
  | _ + 1, _, [] => none
  | n + 1, depth, q :: t =>
    if q ≠ 0x22 then none
    else
      match unquoteBody t.length t with
      | none => none
      | some (key, r) =>
        match skipSpace r with
        | [] => none
        | col :: r1 =>
          if col ≠ 0x3A then none
          else
            match parseValue n depth (skipSpace r1) with
            | none => none
            | some (v, r2) =>
              match skipSpace r2 with
              | [] => none
              | d :: r3 =>
                if d = 0x2C then
                  (parseMembers n depth (skipSpace r3)).map fun p => ((key, v) :: p.1, p.2)
                else if d = 0x7D then some ([(key, v)], r3)
                else none
end

/-- Go `checkValid` and the reading of the value: `data` is white space, one
JSON value, white space.  Every step of the parser uses up one unit of fuel
and at most two steps are taken per input byte, so the fuel given here is
never the reason for a rejection. -/
def parseJSON (data : Str) : Option JSON :=
  match parseValue (2 * data.length + 2) 0 (skipSpace data) with
  | some (v, r) => if skipSpace r = [] then some v else none
  | none => none

/-- ASCII upper case of a byte. -/
def upperASCII (c : Nat) : Nat := if 0x61 ≤ c ∧ c ≤ 0x7A then c - 0x20 else c

/-- Case-insensitive match of an object key against an ASCII field name, as
`encoding/json` folds names: ASCII letters match in either case, and the only
other runes that fold to ASCII letters are U+017F (to `S`) and U+212A (to
`K`). -/
def equalFold : Str → Str → Bool
  | [], [] => true
  | [], _ :: _ => false
  | _ :: _, [] => false
  | sb :: s, tb :: t =>
    if tb < 0x80 then upperASCII sb == upperASCII tb && equalFold s t
    else
      ((upperASCII sb == 0x53 && (DecodeRune (tb :: t)).1 == 0x17F)
        || (upperASCII sb == 0x4B && (DecodeRune (tb :: t)).1 == 0x212A))
      && equalFold s ((tb :: t).drop (DecodeRune (tb :: t)).2)

/-- The struct field an object key is stored into: the field whose JSON name
equals the key, otherwise the first field whose name matches it case-
insensitively; `none` when the key is skipped. -/
def findField (names : List Str) (key : Str) : Option Nat :=
  match names.findIdx? (fun nm => nm == key) with
  | some i => some i
  | none => names.findIdx? (fun nm => equalFold nm key)

/-- Storing a JSON value into a `string`: a JSON string replaces it, `null`
leaves it, anything else leaves it and records an `UnmarshalTypeError`
(the flag). -/
def decodeString (old : Str) : JSON → Str × Bool
  | JSON.str s => (s, false)
  | JSON.null => (old, false)
  | _ => (old, true)

/-- Storing the elements of a JSON array, element `i` into the cell `cell i`. -/
def decodeElems {α : Type} (dec : α → JSON → α × Bool) (cell : Nat → α) :
    Nat → List JSON → List α × Bool
  | _, [] => ([], false)
  | i, x :: xs =>
    ((dec (cell i) x).1 :: (decodeElems dec cell (i + 1) xs).1,
      (dec (cell i) x).2 || (decodeElems dec cell (i + 1) xs).2)

/-- Storing a JSON value into a slice.  An array is stored element by element
into the cells of the backing array, the existing elements first and the
cells past the length after them, and the length becomes the number of
elements (an empty array gives a new empty slice); `null` gives the `nil`
slice; anything else leaves the slice and records a type error. -/
def decodeSlice {α : Type} (zero : α) (dec : α → JSON → α × Bool) (cur : Slice α) :
    JSON → Slice α × Bool
  | JSON.arr [] => (⟨[], fun _ => zero, false⟩, false)
  | JSON.arr (x :: xs) =>
    let cell := fun i => cur.elems.getD i (cur.spare (i - cur.elems.length))
    (⟨(decodeElems dec cell 0 (x :: xs)).1, fun j => cell ((x :: xs).length + j), false⟩,
      (decodeElems dec cell 0 (x :: xs)).2)
  | JSON.null => (Slice.nil zero, false)
  | _ => (cur, true)

/-- Storing the members of a JSON object into a `ChatMessage`, in order. -/
def decodeMessageFields : ChatMessage × Bool → List (Str × JSON) → ChatMessage × Bool
  | acc, [] => acc
  | acc, (key, v) :: kvs =>
    match findField [lit "role", lit "content"] key with
    | some 0 =>
      decodeMessageFields
        ({ acc.1 with Role := (decodeString acc.1.Role v).1 }, acc.2 || (decodeString acc.1.Role v).2)
        kvs
    | some _ =>
      decodeMessageFields
        ({ acc.1 with Content := (decodeString acc.1.Content v).1 },
          acc.2 || (decodeString acc.1.Content v).2)
        kvs
    | none => decodeMessageFields acc kvs

/-- Storing a JSON value into a `ChatMessage`. -/
def decodeMessage (old : ChatMessage) : JSON → ChatMessage × Bool
  | JSON.obj kvs => decodeMessageFields (old, false) kvs
  | JSON.null => (old, false)
  | _ => (old, true)

/-- Go `json.Unmarshal(data, &chatHistory)`: the new value of the slice and
whether an error is returned.  Input that is not well-formed JSON is
rejected before anything is stored. -/
def UnmarshalHistory (data : Str) (cur : Slice ChatMessage) : Slice ChatMessage × Bool :=
  match parseJSON data with
  | none => (cur, true)
  | some v => decodeSlice ChatMessage.zero decodeMessage cur v

/-- Storing the members of a JSON object into a struct whose only field is
named `name`. -/
def decodeOneField {α : Type} (name : Str) (dec : α → JSON → α × Bool) :
    α × Bool → List (Str × JSON) → α × Bool
  | acc, [] => acc
  | acc, (key, v) :: kvs =>
    match findField [name] key with
    | some _ => decodeOneField name dec ((dec acc.1 v).1, acc.2 || (dec acc.1 v).2) kvs
    | none => decodeOneField name dec acc kvs

/-- Storing a JSON value into a struct whose only field is named `name`; the
struct is represented by the value of that field. -/
def decodeStruct {α : Type} (name : Str) (dec : α → JSON → α × Bool) (old : α) :
    JSON → α × Bool
  | JSON.obj kvs => decodeOneField name dec (old, false) kvs
  | JSON.null => (old, false)
  | _ => (old, true)

/-- A value of the struct `APIResponse`: for each element of `Choices` its
`Delta.Content`. -/
abbrev APIResponse := Slice Str

/-- Storing a JSON value into an element of `Choices`. -/
def decodeChoice : Str → JSON → Str × Bool :=
  decodeStruct (lit "delta") (decodeStruct (lit "content") decodeString)

/-- Go `json.Unmarshal([]byte(data), &apiResp)` for a fresh
`var apiResp APIResponse`: the decoded value and whether an error is
returned. -/
def UnmarshalAPIResponse (data : Str) : APIResponse × Bool :=
  match parseJSON data with
  | none => (Slice.nil [], true)
  | some v => decodeStruct (lit "choices") (decodeSlice [] decodeChoice) (Slice.nil []) v

/-- The lower-case hexadecimal digit for a value below 16. -/
def hexDigit (n : Nat) : Nat := if n < 10 then 0x30 + n else 0x61 + (n - 10)

/-- The table `htmlSafeSet`: the ASCII bytes `json.Marshal` writes unescaped. -/
def htmlSafe (b : Nat) : Bool :=
  decide (0x20 ≤ b) && decide (b < 0x80) && b != 0x22 && b != 0x26 && b != 0x3C && b != 0x3E
    && b != 0x5C

/-- The escape `json.Marshal` writes for an ASCII byte outside `htmlSafeSet`. -/
def escapeByte (b : Nat) : Str :=
  if b = 0x5C ∨ b = 0x22 then [0x5C, b]
  else if b = 0x08 then [0x5C, 0x62]
  else if b = 0x0C then [0x5C, 0x66]
  else if b = 0x0A then [0x5C, 0x6E]
  else if b = 0x0D then [0x5C, 0x72]
  else if b = 0x09 then [0x5C, 0x74]
  else [0x5C, 0x75, 0x30, 0x30, hexDigit (b / 16), hexDigit (b % 16)]

/-- The inside of the JSON string `json.Marshal` writes for a Go string
(`appendString` with HTML escaping): an invalid UTF-8 byte is written as the
six bytes of the escape for U+FFFD, and U+2028 and U+2029 as their escapes. -/
def quoteBody : Nat → Str → Str
  | 0, _ => []
  | _ + 1, [] => []
  | n + 1, b :: s =>
    if b < 0x80 then
      (if htmlSafe b then [b] else escapeByte b) ++ quoteBody n s
    else if (DecodeRune (b :: s)).1 = RuneError ∧ (DecodeRune (b :: s)).2 = 1 then
      [0x5C, 0x75, 0x66, 0x66, 0x66, 0x64] ++ quoteBody n s
    else if (DecodeRune (b :: s)).1 = 0x2028 ∨ (DecodeRune (b :: s)).1 = 0x2029 then
      [0x5C, 0x75, 0x32, 0x30, 0x32, hexDigit ((DecodeRune (b :: s)).1 % 16)]
        ++ quoteBody n ((b :: s).drop (DecodeRune (b :: s)).2)
    else
      (b :: s).take (DecodeRune (b :: s)).2 ++ quoteBody n ((b :: s).drop (DecodeRune (b :: s)).2)

/-- The JSON string literal `json.Marshal` writes for a Go string. -/
def quote (s : Str) : Str := [0x22] ++ quoteBody s.length s ++ [0x22]

/-- One `ChatMessage` as `json.MarshalIndent(_, "", "  ")` writes it inside
the array: an object at depth one. -/
def marshalMessage (m : ChatMessage) : Str :=
  lit "  \x7b\n    \"role\": " ++ quote m.Role ++ lit ",\n    \"content\": " ++ quote m.Content
    ++ lit "\n  \x7d"

/-- The messages of a non-empty array, separated by a comma and a line break. -/
def marshalMessages : List ChatMessage → Str
  | [] => []
  | [m] => marshalMessage m
  | m :: ms => marshalMessage m ++ lit ",\n" ++ marshalMessages ms

/-- Go `json.MarshalIndent(chatHistory, "", "  ")`: `null` for the `nil`
slice, `[]` for an empty one, otherwise one object per message, two spaces
per level.  It returns no error for this type. -/
def MarshalIndent (h : Slice ChatMessage) : Str :=
  match h.elems with
  | [] => if h.isNil then lit "null" else lit "[]"
  | m :: ms => lit "[\n" ++ marshalMessages (m :: ms) ++ lit "\n]"

/-- The loop of Go `utf8.Valid`: no rune of the input decodes to
`(RuneError, 1)`. -/
def validLoop : Nat → Str → Bool
  | 0, s => s.isEmpty
  | _ + 1, [] => true
  | n + 1, b :: s =>
    if (DecodeRune (b :: s)).1 = RuneError ∧ (DecodeRune (b :: s)).2 = 1 then false
    else validLoop n ((b :: s).drop (DecodeRune (b :: s)).2)

/-- Go `utf8.ValidString`: the string is well-formed UTF-8. -/
def ValidString (s : Str) : Bool := validLoop s.length s

/-! ## Transcript persistence (`main.go` lines 172-204) -/

/-- The function `handleSaveCommand`. -/
def handleSaveCommand (st : State) (filename : Str) : State :=
  match st.fs.writeFile filename (MarshalIndent st.chatHistory) with
  | none => st
  | some fs1 => { st with fs := fs1 }

/-- The function `handleLoadCommand`: `json.Unmarshal` stores into the
variable `chatHistory` itself, whether or not it then returns an error. -/
def handleLoadCommand (st : State) (filename : Str) : State :=
  match st.fs.readFile filename with
  | none => st
  | some data => { st with chatHistory := (UnmarshalHistory data st.chatHistory).1 }

/-- Whether `handleLoadCommand` reports an error (`Error loading history` or
`Error unmarshalling history`) instead of `History loaded`. -/
def loadReportsError (st : State) (filename : Str) : Bool :=
  match st.fs.readFile filename with
  | none => true
  | some data => (UnmarshalHistory data st.chatHistory).2

/-! ## Streaming completion client (`main.go` lines 315-370) -/

/-- What the outside world answers during one dispatch: the body of the
completion response as far as it can be read, or `none` when `client.Do`
returns an error (no response). -/
structure Env where
  completion : Option Str

/-- Go `bufio.Reader.ReadString(delim)` on the unread input: the bytes up to
and including the first `delim` and the input after it, or `none` when the
input ends first (the call returns an error). -/
def ReadString (delim : Nat) : Str → Option (Str × Str)
  | [] => none
  | c :: cs =>
    if c = delim then some ([c], cs)
    else (ReadString delim cs).map fun p => (c :: p.1, p.2)

/-- The `for` loop of `getStreamingResponse` (lines 347-367): `reader` is the
unread part of the body, `fullResponse` the text accumulated so far; the
result is `fullResponse` when the loop is left.  Each iteration reads at least
one byte, so `fuel` above the length of the body is never used up. -/
def streamLoop : Nat → Str → Str → Str
  | 0, _, fullResponse => fullResponse
  | n + 1, reader, fullResponse =>
    match ReadString 0x0A reader with
    | none => fullResponse
    | some (line, rest) =>
      if HasPrefix line (lit "data: ") then
        if TrimSpace (TrimPrefix line (lit "data: ")) = lit "[DONE]" then fullResponse
        else if (UnmarshalAPIResponse (TrimPrefix line (lit "data: "))).2 = false
            ∧ (UnmarshalAPIResponse (TrimPrefix line (lit "data: "))).1.elems.length > 0 then
          streamLoop n rest
            (fullResponse
              ++ (UnmarshalAPIResponse (TrimPrefix line (lit "data: "))).1.elems.headD [])
        else streamLoop n rest fullResponse
      else streamLoop n rest fullResponse

/-- The function `getStreamingResponse`.  Marshalling the request and building
the HTTP request cannot fail for these values; a failed `client.Do` returns
without touching the transcript. -/
def getStreamingResponse (env : Env) (st : State) : State :=
  match env.completion with
  | none => st
  | some body =>
    { st with
      chatHistory :=
        st.chatHistory.append ⟨lit "assistant", streamLoop (body.length + 1) body []⟩ }

/-! ## Command dispatcher (`main.go` lines 372-462) -/

/-- How a call of `executor` ends: it returns with the variables in a new
state, the process exits (`os.Exit(0)`), or the process stops with an index
out of range at `parts[0]` (which would happen if `strings.Fields` found no
token in a line that is not empty after trimming). -/
inductive Outcome where
  | running (st : State)
  | exited
  | crashed

/-- The function `printHelp`: prints the command list. -/
def printHelp (st : State) : State := st

/-- The function `handleShowCommand`: reads the file and prints it, or prints
the read error; it assigns no variable and writes no file. -/
def handleShowCommand (st : State) (_filepath : Str) : State := st

/-- The function `handleHistoryCommand`: prints the transcript. -/
def handleHistoryCommand (st : State) : State := st

/-- The function `handleSearchCommand`: one HTTP GET whose answer is printed;
it assigns no variable and writes no file. -/
def handleSearchCommand (st : State) (_query : Str) : State := st

/-- The function `handleImageCommand`: for each path that is not a URL the
file is read (`encodeImage`) and the result dropped; only messages are
printed. -/
def handleImageCommand (st : State) (_paths : List Str) : State := st

/-- The function `handleModelCommand`: prints `DEFAULT_MODEL`. -/
def handleModelCommand (st : State) : State := st

/-- Go `strings.Join(elems, sep)`. -/
def Join (elems : List Str) (sep : Str) : Str :=
  match elems with
  | [] => []
  | [e] => e
  | e :: rest => e ++ sep ++ Join rest sep

/-- The function `executor`. -/
def executor (env : Env) (st : State) (input : Str) : Outcome :=
  if TrimSpace input = [] then Outcome.running st
  else
    match Fields (TrimSpace input) with
    | [] => Outcome.crashed
    | command :: args =>
      if command = lit "/help" then Outcome.running (printHelp st)
      else if command = lit "/exit" then Outcome.exited
      else if command = lit "/clear" then Outcome.running st
      else if command = lit "/show" then
        match args with
        | [] => Outcome.running st
        | a :: _ => Outcome.running (handleShowCommand st a)
      else if command = lit "/new" then
        match args with
        | [] => Outcome.running st
        | a :: _ => Outcome.running (handleNewCommand st a)
      else if command = lit "/add" then
        match args with
        | [] => Outcome.running st
        | a :: _ => Outcome.running (handleAddCommand st a)
      else if command = lit "/edit" then
        match args with
        | [] => Outcome.running st
        | a :: _ => Outcome.running (handleEditCommand st a)
      else if command = lit "/diff" then Outcome.running (handleDiffCommand st)
      else if command = lit "/history" then Outcome.running (handleHistoryCommand st)
      else if command = lit "/save" then
        match args with
        | [] => Outcome.running st
        | a :: _ => Outcome.running (handleSaveCommand st a)
      else if command = lit "/load" then
        match args with
        | [] => Outcome.running st
        | a :: _ => Outcome.running (handleLoadCommand st a)
      else if command = lit "/undo" then
        match args with
        | [] => Outcome.running st
        | a :: _ => Outcome.running (handleUndoCommand st a)
      else if command = lit "/search" then
        match args with
        | [] => Outcome.running st
        | a :: rest => Outcome.running (handleSearchCommand st (Join (a :: rest) (lit " ")))
      else if command = lit "/image" then
        match args with
        | [] => Outcome.running st
        | a :: rest => Outcome.running (handleImageCommand st (a :: rest))
      else if command = lit "/model" then Outcome.running (handleModelCommand st)
      else if command = lit "/change_model" then
        match args with
        | [] => Outcome.running st
        | a :: _ => Outcome.running (handleChangeModelCommand st a)
      else
        Outcome.running
          (getStreamingResponse env
            { st with chatHistory := st.chatHistory.append ⟨lit "user", TrimSpace input⟩ })

/-- The case labels of the `switch` in `executor`. -/
def knownCommands : List Str :=
  [lit "/help", lit "/exit", lit "/clear", lit "/show", lit "/new", lit "/add", lit "/edit",
    lit "/diff", lit "/history", lit "/save", lit "/load", lit "/undo", lit "/search",
    lit "/image", lit "/model", lit "/change_model"]

/-- The transcript after a call of `executor`, when it returns. -/
def Outcome.transcript : Outcome → Option (List ChatMessage)
  | Outcome.running st => some st.chatHistory.elems
  | _ => none

/-- The tracked files after a call of `executor`, when it returns. -/
def Outcome.tracked : Outcome → Option (List Str)
  | Outcome.running st => some st.addedFiles
  | _ => none

/-- A file system with no files in which every path can be created. -/
def FS.empty : FS := ⟨fun _ => none, fun _ => true⟩

/-- Whether `handleUndoCommand` reports `Undone changes`: there is a snapshot
and writing it succeeds. -/
def undoSucceeds (st : State) (filepath : Str) : Bool :=
  match st.undoHistory filepath with
  | none => false
  | some originalContent => (st.fs.writeFile filepath originalContent).isSome

/-- A file system in which `dir` is a directory that holds `f`, a regular file
that cannot be written. -/
def FS.readOnlyExample : FS :=
  ⟨fun q => if q = lit "f" then some (Node.file (lit "new") true false) else none, fun _ => true⟩

/-- A state with an undo snapshot for `f`, over `FS.readOnlyExample`. -/
def State.readOnlyExample : State :=
  { State.init FS.readOnlyExample with
    undoHistory := fun q => if q = lit "f" then some (lit "old") else none }

/-- A file system with a directory `d` listing a text file `t`, a binary file
`b` (a zero byte in its head) and a subdirectory `s`. -/
def FS.addExample : FS :=
  ⟨fun q =>
      if q = lit "d" then
        some (Node.dir [(lit "b", false), (lit "s", true), (lit "t", false)] true)
      else if q = lit "d/t" then some (Node.file (lit "text") true true)
      else if q = lit "d/b" then some (Node.file [0x7F, 0x45, 0x00, 0x46] true true)
      else if q = lit "d/s" then some (Node.dir [] true)
      else none,
    fun _ => true⟩

/-- One dispatch of a session: the line typed, what the outside world answers
during the dispatch, and the file system as other programs have left it since
the previous dispatch (`none` when they have not touched it). -/
structure Input where
  line : Str
  env : Env
  world : Option FS

/-- The session loop: `executor` is called on each input line in turn until
the process ends. -/
def run : State → List Input → Outcome
  | st, [] => Outcome.running st
  | st, i :: rest =>
    match executor i.env (match i.world with
                          | some fs => { st with fs := fs }
                          | none => st) i.line with
    | Outcome.running st1 => run st1 rest
    | Outcome.exited => Outcome.exited
    | Outcome.crashed => Outcome.crashed

/-- The line is a `/load` command: the first token of the trimmed line is
`/load`. -/
def isLoadLine (line : Str) : Bool :=
  (Fields (TrimSpace line)).head? == some (lit "/load")

/-! ## The streamed text as the specification words it -/

/-- A `data: [DONE]` line: the line starts with `data: ` and the rest of it,
which includes the line break, is `[DONE]` once surrounding white space is
trimmed. -/
def isDoneLine (line : Str) : Bool :=
  HasPrefix line (lit "data: ") && decide (TrimSpace (TrimPrefix line (lit "data: ")) = lit "[DONE]")

/-- What a line contributes: the first choice's delta text when the line
starts with `data: ` and its payload decodes, without error, to a fragment
with at least one choice; nothing otherwise. -/
def lineDelta (line : Str) : Option Str :=
  if HasPrefix line (lit "data: ") then
    if (UnmarshalAPIResponse (TrimPrefix line (lit "data: "))).2 = false then
      (UnmarshalAPIResponse (TrimPrefix line (lit "data: "))).1.elems.head?
    else none
  else none

/-- The concatenation, in order, of what the lines before the first
`data: [DONE]` line contribute. -/
def streamedText (lines : List Str) : Str :=
  ((lines.takeWhile fun l => !isDoneLine l).filterMap lineDelta).flatten

/-- A response body made of the given lines, each terminated by a line
break. -/
def bodyOfLines (lines : List Str) : Str :=
  (lines.map fun l => l ++ [0x0A]).flatten

/-- The line `data: ` followed by a fragment whose only choice has the delta
text `d` (which must need no escaping). -/
def deltaLine (d : Str) : Str :=
  lit "data: \x7b\"choices\":[\x7b\"delta\":\x7b\"content\":\"" ++ d ++ lit "\"\x7d\x7d]\x7d"

/-- A session with the file `h.json` holding the JSON text `[0]` and a
transcript of three messages. -/
def State.loadExample : State :=
  { State.init
      ⟨fun q => if q = lit "h.json" then some (Node.file (lit "[0]") true true) else none,
        fun _ => true⟩ with
    chatHistory :=
      (((Slice.nil ChatMessage.zero).append ⟨lit "system", lit "be brief"⟩).append
        ⟨lit "user", lit "hi"⟩).append ⟨lit "assistant", lit "yo"⟩ }

/-- A session whose transcript holds a user message that is not well-formed
UTF-8 (the single byte `0xFF`). -/
def State.invalidTextExample : State :=
  { State.init FS.empty with
    chatHistory := (Slice.nil ChatMessage.zero).append ⟨lit "user", [0xFF]⟩ }

/-- The JSON value a message is read back as. -/
def messageJSON (m : ChatMessage) : JSON :=
  JSON.obj [(lit "role", JSON.str m.Role), (lit "content", JSON.str m.Content)]

/-- The object text of a message, from its opening brace. -/
def objText (m : ChatMessage) : Str :=
  [0x7B, 0x0A, 0x20, 0x20, 0x20, 0x20] ++ quote (lit "role") ++ [0x3A, 0x20] ++ quote m.Role
    ++ [0x2C, 0x0A, 0x20, 0x20, 0x20, 0x20] ++ quote (lit "content") ++ [0x3A, 0x20]
    ++ quote m.Content ++ [0x0A, 0x20, 0x20, 0x7D]

/-- The text of the elements of a non-empty array, from the first opening
brace through the closing bracket. -/
def elemsText : List ChatMessage → Str
  | [] => []
  | [m] => objText m ++ [0x0A, 0x5D]
  | m :: m2 :: ms => objText m ++ [0x2C, 0x0A, 0x20, 0x20] ++ elemsText (m2 :: ms)

/-- A session whose transcript holds, after the system message, a user
message with a quote, `<`, a line break, a two-byte rune and U+2028. -/
def State.roundTripExample : State :=
  { State.init FS.empty with
    chatHistory :=
      (State.init FS.empty).chatHistory.append
        ⟨lit "user", [0x22, 0x3C, 0x0A, 0xC3, 0xA9, 0xE2, 0x80, 0xA8]⟩ }

/-! ## Theorems -/

/-! ### File system and handlers -/

theorem writeFile_content {fs fs1 : FS} {path data : Str}
    (h : fs.writeFile path data = some fs1) : fs1.content path = some data := by
  unfold FS.writeFile at h
  split at h
  · simp only [Option.some.injEq] at h
    subst h
    simp [FS.content]
  · simp at h
  · simp at h
  · split at h
    · simp only [Option.some.injEq] at h
      subst h
      simp [FS.content]
    · simp at h

theorem readFile_content {fs : FS} {path data : Str}
    (h : fs.readFile path = some data) : fs.content path = some data := by
  unfold FS.readFile at h
  unfold FS.content
  split at h
  · rename_i c w hn
    simp only [Option.some.injEq] at h
    subst h
    simp [hn]
  · simp at h

theorem addEntries_spec (fs : FS) (path : Str) (files : List (Str × Bool)) :
    ∀ added : List Str, ∃ new : List Str,
      addEntries fs path files added = added ++ new ∧
      ∀ q ∈ new, ∃ name, (name, false) ∈ files ∧ q = path ++ lit "/" ++ name ∧
        isTextFile fs q = some true := by
  induction files with
  | nil => intro added; exact ⟨[], by simp [addEntries], by simp⟩
  | cons e files ih =>
    intro added
    obtain ⟨name, isDir⟩ := e
    unfold addEntries
    by_cases hc : (!isDir && isTextFile fs (path ++ lit "/" ++ name) == some true) = true
    · simp only [hc, if_true]
      obtain ⟨new, hnew, hall⟩ := ih (added ++ [path ++ lit "/" ++ name])
      refine ⟨(path ++ lit "/" ++ name) :: new, by rw [hnew]; simp, ?_⟩
      intro q hq
      rcases List.mem_cons.mp hq with rfl | hq
      · simp only [Bool.and_eq_true, Bool.not_eq_true', beq_iff_eq] at hc
        exact ⟨name, by simp [hc.1], rfl, hc.2⟩
      · obtain ⟨nm, hmem, heq, htxt⟩ := hall q hq
        exact ⟨nm, List.mem_cons_of_mem _ hmem, heq, htxt⟩
    · simp only [hc]
      obtain ⟨new, hnew, hall⟩ := ih added
      refine ⟨new, by simpa using hnew, ?_⟩
      intro q hq
      obtain ⟨nm, hmem, heq, htxt⟩ := hall q hq
      exact ⟨nm, List.mem_cons_of_mem _ hmem, heq, htxt⟩

theorem isTextFile_true {fs : FS} {q : Str} (h : isTextFile fs q = some true) :
    ∃ c w, fs.node q = some (Node.file c true w) ∧ ∀ b ∈ c.take 512, b ≠ 0 := by
  unfold isTextFile FS.readHead at h
  split at h
  · simp at h
  · rename_i buffer hb
    split at hb
    · rename_i c w hn
      simp only [Option.some.injEq] at hb
      subst hb
      simp only [Option.some.injEq, List.all_eq_true, bne_iff_ne, ne_eq] at h
      exact ⟨c, w, hn, h⟩
    · simp at hb

/-! ### Dispatcher -/

theorem handleNewCommand_chatHistory (st : State) (a : Str) :
    (handleNewCommand st a).chatHistory = st.chatHistory := by
  unfold handleNewCommand
  split
  · rfl
  · dsimp only
    split <;> rfl

theorem handleAddCommand_chatHistory (st : State) (a : Str) :
    (handleAddCommand st a).chatHistory = st.chatHistory := by
  unfold handleAddCommand
  split
  · rfl
  · split <;> rfl
  · split <;> rfl

theorem handleEditCommand_chatHistory (st : State) (a : Str) :
    (handleEditCommand st a).chatHistory = st.chatHistory := by
  unfold handleEditCommand
  split <;> rfl

theorem handleUndoCommand_chatHistory (st : State) (a : Str) :
    (handleUndoCommand st a).chatHistory = st.chatHistory := by
  unfold handleUndoCommand
  split
  · rfl
  · split <;> rfl

theorem handleSaveCommand_chatHistory (st : State) (a : Str) :
    (handleSaveCommand st a).chatHistory = st.chatHistory := by
  unfold handleSaveCommand
  split <;> rfl

theorem getStreamingResponse_elems (env : Env) (st : State) :
    (getStreamingResponse env st).chatHistory.elems =
      st.chatHistory.elems ++
        (match env.completion with
         | none => []
         | some body => [⟨lit "assistant", streamLoop (body.length + 1) body []⟩]) := by
  unfold getStreamingResponse
  cases env.completion <;> simp [Slice.append]

theorem Fields_ne_nil {s : Str} {command : Str} {args : List Str}
    (hf : Fields s = command :: args) : s ≠ [] := by
  intro h
  subst h
  simp [Fields, fieldsLoop] at hf

/-- A line whose first token is not a case label reaches the `default` branch
of `executor`. -/
theorem executor_default (env : Env) (st : State) (input command : Str) (args : List Str)
    (hf : Fields (TrimSpace input) = command :: args) (hk : command ∉ knownCommands) :
    executor env st input =
      Outcome.running
        (getStreamingResponse env
          { st with chatHistory := st.chatHistory.append ⟨lit "user", TrimSpace input⟩ }) := by
  have hne : TrimSpace input ≠ [] := Fields_ne_nil hf
  simp only [knownCommands, List.mem_cons, List.mem_singleton, not_or, List.mem_nil_iff,
    not_false_eq_true, and_true] at hk
  obtain ⟨k1, k2, k3, k4, k5, k6, k7, k8, k9, k10, k11, k12, k13, k14, k15, k16⟩ := hk
  unfold executor
  simp only [hne, hf, if_false, k1, k2, k3, k4, k5, k6, k7, k8, k9, k10, k11, k12, k13, k14,
    k15, k16]

theorem running_same {st st1 st2 : State} (h : Outcome.running st2 = Outcome.running st1)
    (hc : st2.chatHistory = st.chatHistory) :
    st.chatHistory.elems <+: st1.chatHistory.elems := by
  simp only [Outcome.running.injEq] at h
  subst h
  rw [hc]

/-- Every dispatch other than `/load` leaves the transcript a prefix of the
new transcript. -/
theorem executor_appends (env : Env) (st st1 : State) (line : Str)
    (hl : isLoadLine line = false) (h : executor env st line = Outcome.running st1) :
    st.chatHistory.elems <+: st1.chatHistory.elems := by
  unfold executor at h
  by_cases h0 : TrimSpace line = []
  · rw [if_pos h0] at h
    exact running_same h rfl
  · rw [if_neg h0] at h
    cases hf : Fields (TrimSpace line) with
    | nil => rw [hf] at h; exact Outcome.noConfusion h
    | cons command args =>
      have hnl : command ≠ lit "/load" := by
        intro hc
        simp [isLoadLine, hf, hc] at hl
      rw [hf] at h
      dsimp only at h
      by_cases c1 : command = lit "/help"
      · rw [if_pos c1] at h; exact running_same h rfl
      rw [if_neg c1] at h
      by_cases c2 : command = lit "/exit"
      · rw [if_pos c2] at h; exact Outcome.noConfusion h
      rw [if_neg c2] at h
      by_cases c3 : command = lit "/clear"
      · rw [if_pos c3] at h; exact running_same h rfl
      rw [if_neg c3] at h
      by_cases c4 : command = lit "/show"
      · rw [if_pos c4] at h
        cases args with
        | nil => exact running_same h rfl
        | cons a t => exact running_same h rfl
      rw [if_neg c4] at h
      by_cases c5 : command = lit "/new"
      · rw [if_pos c5] at h
        cases args with
        | nil => exact running_same h rfl
        | cons a t => exact running_same h (handleNewCommand_chatHistory _ _)
      rw [if_neg c5] at h
      by_cases c6 : command = lit "/add"
      · rw [if_pos c6] at h
        cases args with
        | nil => exact running_same h rfl
        | cons a t => exact running_same h (handleAddCommand_chatHistory _ _)
      rw [if_neg c6] at h
      by_cases c7 : command = lit "/edit"
      · rw [if_pos c7] at h
        cases args with
        | nil => exact running_same h rfl
        | cons a t => exact running_same h (handleEditCommand_chatHistory _ _)
      rw [if_neg c7] at h
      by_cases c8 : command = lit "/diff"
      · rw [if_pos c8] at h; exact running_same h rfl
      rw [if_neg c8] at h
      by_cases c9 : command = lit "/history"
      · rw [if_pos c9] at h; exact running_same h rfl
      rw [if_neg c9] at h
      by_cases c10 : command = lit "/save"
      · rw [if_pos c10] at h
        cases args with
        | nil => exact running_same h rfl
        | cons a t => exact running_same h (handleSaveCommand_chatHistory _ _)
      rw [if_neg c10, if_neg hnl] at h
      by_cases c12 : command = lit "/undo"
      · rw [if_pos c12] at h
        cases args with
        | nil => exact running_same h rfl
        | cons a t => exact running_same h (handleUndoCommand_chatHistory _ _)
      rw [if_neg c12] at h
      by_cases c13 : command = lit "/search"
      · rw [if_pos c13] at h
        cases args with
        | nil => exact running_same h rfl
        | cons a t => exact running_same h rfl
      rw [if_neg c13] at h
      by_cases c14 : command = lit "/image"
      · rw [if_pos c14] at h
        cases args with
        | nil => exact running_same h rfl
        | cons a t => exact running_same h rfl
      rw [if_neg c14] at h
      by_cases c15 : command = lit "/model"
      · rw [if_pos c15] at h; exact running_same h rfl
      rw [if_neg c15] at h
      by_cases c16 : command = lit "/change_model"
      · rw [if_pos c16] at h
        cases args with
        | nil => exact running_same h rfl
        | cons a t => exact running_same h rfl
      rw [if_neg c16] at h
      simp only [Outcome.running.injEq] at h
      subst h
      rw [getStreamingResponse_elems]
      simp only [Slice.append, List.append_assoc]
      exact List.prefix_append _ _

theorem run_invariant (inputs : List Input) :
    ∀ st st1 : State, (∀ i ∈ inputs, isLoadLine i.line = false) →
      run st inputs = Outcome.running st1 →
      st.chatHistory.elems <+: st1.chatHistory.elems := by
  induction inputs with
  | nil =>
    intro st st1 _ h
    simp only [run, Outcome.running.injEq] at h
    subst h
    exact List.prefix_refl _
  | cons i rest ih =>
    intro st st1 hl h
    unfold run at h
    split at h
    · rename_i st2 hex
      have hp := executor_appends _ _ _ _ (hl i (List.mem_cons_self _ _)) hex
      have hq := ih st2 st1 (fun j hj => hl j (List.mem_cons_of_mem _ hj)) h
      have hfs : (match i.world with
                  | some fs => { st with fs := fs }
                  | none => st).chatHistory = st.chatHistory := by
        cases i.world <;> rfl
      rw [hfs] at hp
      exact hp.trans hq
    · simp at h
    · simp at h

/-! ### Streaming loop -/

theorem ReadString_line (l rest : Str) (hl : 0x0A ∉ l) :
    ReadString 0x0A (l ++ [0x0A] ++ rest) = some (l ++ [0x0A], rest) := by
  induction l with
  | nil => simp [ReadString]
  | cons c l ih =>
    have hc : c ≠ 0x0A := fun h => hl (by simp [h])
    have hl1 : 0x0A ∉ l := fun h => hl (List.mem_cons_of_mem _ h)
    simp only [List.cons_append, ReadString, if_neg hc]
    have := ih hl1
    simp only [List.append_assoc, List.singleton_append] at this
    simp [this]

theorem streamLoop_lines (lines : List Str) :
    ∀ (fuel : Nat) (acc : Str), (∀ l ∈ lines, 0x0A ∉ l) →
      (bodyOfLines lines).length < fuel →
      streamLoop fuel (bodyOfLines lines) acc
        = acc ++ streamedText (lines.map fun l => l ++ [0x0A]) := by
  induction lines with
  | nil =>
    intro fuel acc _ _
    cases fuel <;> simp [streamLoop, bodyOfLines, ReadString, streamedText]
  | cons l ls ih =>
    intro fuel acc hnl hfuel
    have hl : 0x0A ∉ l := hnl l (List.mem_cons_self _ _)
    have hls : ∀ l ∈ ls, 0x0A ∉ l := fun x hx => hnl x (List.mem_cons_of_mem _ hx)
    have hbody : bodyOfLines (l :: ls) = l ++ [0x0A] ++ bodyOfLines ls := by
      simp [bodyOfLines]
    cases fuel with
    | zero => simp at hfuel
    | succ n =>
      have hn : (bodyOfLines ls).length < n := by
        rw [hbody] at hfuel
        simp only [List.length_append, List.length_singleton] at hfuel
        omega
      rw [hbody]
      unfold streamLoop
      rw [ReadString_line l (bodyOfLines ls) hl]
      dsimp only
      by_cases hp : HasPrefix (l ++ [0x0A]) (lit "data: ") = true
      · rw [if_pos hp]
        by_cases hd : TrimSpace (TrimPrefix (l ++ [0x0A]) (lit "data: ")) = lit "[DONE]"
        · rw [if_pos hd]
          have : isDoneLine (l ++ [0x0A]) = true := by simp [isDoneLine, hp, hd]
          simp [streamedText, List.takeWhile, this]
        · rw [if_neg hd]
          have hnd : isDoneLine (l ++ [0x0A]) = false := by simp [isDoneLine, hd]
          by_cases hu : (UnmarshalAPIResponse (TrimPrefix (l ++ [0x0A]) (lit "data: "))).2 = false
              ∧ (UnmarshalAPIResponse (TrimPrefix (l ++ [0x0A]) (lit "data: "))).1.elems.length > 0
          · rw [if_pos hu, ih n _ hls hn]
            obtain ⟨hu1, hu2⟩ := hu
            cases he : (UnmarshalAPIResponse (TrimPrefix (l ++ [0x0A]) (lit "data: "))).1.elems with
            | nil => rw [he] at hu2; simp at hu2
            | cons d ds =>
              simp [streamedText, List.takeWhile, hnd, lineDelta, hp, hu1, he]
          · rw [if_neg hu, ih n _ hls hn]
            have hdelta : lineDelta (l ++ [0x0A]) = none := by
              unfold lineDelta
              rw [if_pos hp]
              by_cases hu1 : (UnmarshalAPIResponse (TrimPrefix (l ++ [0x0A]) (lit "data: "))).2 = false
              · rw [if_pos hu1]
                have hlen : ¬ (UnmarshalAPIResponse
                    (TrimPrefix (l ++ [0x0A]) (lit "data: "))).1.elems.length > 0 :=
                  fun h => hu ⟨hu1, h⟩
                cases he : (UnmarshalAPIResponse (TrimPrefix (l ++ [0x0A]) (lit "data: "))).1.elems with
                | nil => rfl
                | cons d ds => rw [he] at hlen; simp at hlen
              · rw [if_neg hu1]
            simp [streamedText, List.takeWhile, hnd, hdelta]
      · rw [if_neg hp, ih n _ hls hn]
        have hnd : isDoneLine (l ++ [0x0A]) = false := by simp [isDoneLine, hp]
        have hdelta : lineDelta (l ++ [0x0A]) = none := by simp [lineDelta, hp]
        simp [streamedText, List.takeWhile, hnd, hdelta]

/-! ### UTF-8 decoding and encoding -/

theorem DecodeRune_cases (b : Nat) (s : Str) (hb : 0x80 ≤ b)
    (hv : ¬ ((DecodeRune (b :: s)).1 = RuneError ∧ (DecodeRune (b :: s)).2 = 1)) :
    (∃ b1 s1, s = b1 :: s1 ∧ 0xC2 ≤ b ∧ b < 0xE0 ∧ 0x80 ≤ b1 ∧ b1 ≤ 0xBF ∧
      DecodeRune (b :: s) = (b % 0x20 * 0x40 + b1 % 0x40, 2)) ∨
    (∃ b1 b2 s1, s = b1 :: b2 :: s1 ∧ 0xE0 ≤ b ∧ b < 0xF0 ∧
      (if b = 0xE0 then 0xA0 else 0x80) ≤ b1 ∧ b1 ≤ (if b = 0xED then 0x9F else 0xBF) ∧
      0x80 ≤ b2 ∧ b2 ≤ 0xBF ∧
      DecodeRune (b :: s) = (b % 0x10 * 0x1000 + b1 % 0x40 * 0x40 + b2 % 0x40, 3)) ∨
    (∃ b1 b2 b3 s1, s = b1 :: b2 :: b3 :: s1 ∧ 0xF0 ≤ b ∧ b < 0xF5 ∧
      (if b = 0xF0 then 0x90 else 0x80) ≤ b1 ∧ b1 ≤ (if b = 0xF4 then 0x8F else 0xBF) ∧
      0x80 ≤ b2 ∧ b2 ≤ 0xBF ∧ 0x80 ≤ b3 ∧ b3 ≤ 0xBF ∧
      DecodeRune (b :: s)
        = (b % 0x08 * 0x40000 + b1 % 0x40 * 0x1000 + b2 % 0x40 * 0x40 + b3 % 0x40, 4)) := by
  have h1 : ¬ b < 0x80 := by omega
  unfold DecodeRune at hv ⊢
  simp only [h1, if_false] at hv ⊢
  by_cases h2 : b < 0xC2
  · simp [h2] at hv
  simp only [h2, if_false] at hv ⊢
  by_cases h3 : b < 0xE0
  · simp only [h3, if_true] at hv ⊢
    left
    cases s with
    | nil => simp at hv
    | cons b1 s1 =>
      simp only at hv ⊢
      by_cases hc : isCont b1 = true
      · simp only [hc, if_true]
        simp only [isCont, Bool.and_eq_true, decide_eq_true_eq] at hc
        exact ⟨b1, s1, rfl, by omega, trivial, hc.1, hc.2, rfl⟩
      · simp [hc] at hv
  simp only [h3, if_false] at hv ⊢
  by_cases h4 : b < 0xF0
  · simp only [h4, if_true] at hv ⊢
    right; left
    match s, hv with
    | [], hv => simp at hv
    | [_], hv => simp at hv
    | b1 :: b2 :: s1, hv =>
      simp only at hv ⊢
      by_cases hc : (decide ((if b = 0xE0 then 0xA0 else 0x80) ≤ b1)
          && decide (b1 ≤ (if b = 0xED then 0x9F else 0xBF)) && isCont b2) = true
      · simp only [hc, if_true]
        simp only [isCont, Bool.and_eq_true, decide_eq_true_eq] at hc
        exact ⟨b1, b2, s1, rfl, by omega, trivial, hc.1.1, hc.1.2, hc.2.1, hc.2.2, rfl⟩
      · simp [hc] at hv
  simp only [h4, if_false] at hv ⊢
  by_cases h5 : b < 0xF5
  · simp only [h5, if_true] at hv ⊢
    right; right
    match s, hv with
    | [], hv => simp at hv
    | [_], hv => simp at hv
    | [_, _], hv => simp at hv
    | b1 :: b2 :: b3 :: s1, hv =>
      simp only at hv ⊢
      by_cases hc : (decide ((if b = 0xF0 then 0x90 else 0x80) ≤ b1)
          && decide (b1 ≤ (if b = 0xF4 then 0x8F else 0xBF)) && isCont b2 && isCont b3) = true
      · simp only [hc, if_true]
        simp only [isCont, Bool.and_eq_true, decide_eq_true_eq] at hc
        exact ⟨b1, b2, b3, s1, rfl, by omega, trivial, hc.1.1.1, hc.1.1.2, hc.1.2.1, hc.1.2.2,
          hc.2.1, hc.2.2, rfl⟩
      · simp [hc] at hv
  · simp [h5] at hv

theorem DecodeRune_valid (b : Nat) (s : Str) (hb : 0x80 ≤ b)
    (hv : ¬ ((DecodeRune (b :: s)).1 = RuneError ∧ (DecodeRune (b :: s)).2 = 1)) :
    ∃ (r size : Nat) (pre post : Str), DecodeRune (b :: s) = (r, size) ∧
      b :: s = b :: pre ++ post ∧ (b :: pre).length = size ∧ EncodeRune r = b :: pre ∧
      ∀ X, DecodeRune (b :: pre ++ X) = (r, size) := by
  rcases DecodeRune_cases b s hb hv with
    ⟨b1, s1, rfl, h1, h2, h3, h4, hd⟩ | ⟨b1, b2, s1, rfl, h1, h2, h3, h4, h5, h6, hd⟩ |
    ⟨b1, b2, b3, s1, rfl, h1, h2, h3, h4, h5, h6, h7, h8, hd⟩
  · refine ⟨_, _, [b1], s1, hd, rfl, rfl, ?_, ?_⟩
    · unfold EncodeRune
      have e1 : ¬ (b % 0x20 * 0x40 + b1 % 0x40 ≤ 0x7F) := by omega
      have e2 : b % 0x20 * 0x40 + b1 % 0x40 ≤ 0x7FF := by omega
      rw [if_neg e1, if_pos e2]
      have e3 : 0xC0 + (b % 0x20 * 0x40 + b1 % 0x40) / 0x40 = b := by omega
      have e4 : 0x80 + (b % 0x20 * 0x40 + b1 % 0x40) % 0x40 = b1 := by omega
      rw [e3, e4]
    · intro X
      have c1 : ¬ b < 0x80 := by omega
      have c2 : ¬ b < 0xC2 := by omega
      have c3 : isCont b1 = true := by simp [isCont, h3, h4]
      simp [DecodeRune, c1, c2, h2, c3]
  · refine ⟨_, _, [b1, b2], s1, hd, rfl, rfl, ?_, ?_⟩
    · unfold EncodeRune
      split_ifs at h3 h4 <;>
      · have e1 : ¬ (b % 0x10 * 0x1000 + b1 % 0x40 * 0x40 + b2 % 0x40 ≤ 0x7F) := by omega
        have e2 : ¬ (b % 0x10 * 0x1000 + b1 % 0x40 * 0x40 + b2 % 0x40 ≤ 0x7FF) := by omega
        have e3 : ¬ (0x10FFFF < b % 0x10 * 0x1000 + b1 % 0x40 * 0x40 + b2 % 0x40 ∨
            (0xD800 ≤ b % 0x10 * 0x1000 + b1 % 0x40 * 0x40 + b2 % 0x40 ∧
              b % 0x10 * 0x1000 + b1 % 0x40 * 0x40 + b2 % 0x40 ≤ 0xDFFF)) := by omega
        have e4 : b % 0x10 * 0x1000 + b1 % 0x40 * 0x40 + b2 % 0x40 ≤ 0xFFFF := by omega
        rw [if_neg e1, if_neg e2, if_neg e3, if_pos e4]
        have f1 : 0xE0 + (b % 0x10 * 0x1000 + b1 % 0x40 * 0x40 + b2 % 0x40) / 0x1000 = b := by
          omega
        have f2 : 0x80 + (b % 0x10 * 0x1000 + b1 % 0x40 * 0x40 + b2 % 0x40) / 0x40 % 0x40 = b1 := by
          omega
        have f3 : 0x80 + (b % 0x10 * 0x1000 + b1 % 0x40 * 0x40 + b2 % 0x40) % 0x40 = b2 := by
          omega
        rw [f1, f2, f3]
    · intro X
      have c1 : ¬ b < 0x80 := by omega
      have c2 : ¬ b < 0xC2 := by omega
      have c3 : ¬ b < 0xE0 := by omega
      have c4 : isCont b2 = true := by simp [isCont, h5, h6]
      simp [DecodeRune, c1, c2, c3, h2, c4, h3, h4]
  · refine ⟨_, _, [b1, b2, b3], s1, hd, rfl, rfl, ?_, ?_⟩
    · unfold EncodeRune
      split_ifs at h3 h4 <;>
      · have e1 : ¬ (b % 0x08 * 0x40000 + b1 % 0x40 * 0x1000 + b2 % 0x40 * 0x40 + b3 % 0x40
            ≤ 0x7F) := by omega
        have e2 : ¬ (b % 0x08 * 0x40000 + b1 % 0x40 * 0x1000 + b2 % 0x40 * 0x40 + b3 % 0x40
            ≤ 0x7FF) := by omega
        have e3 : ¬ (0x10FFFF < b % 0x08 * 0x40000 + b1 % 0x40 * 0x1000 + b2 % 0x40 * 0x40
              + b3 % 0x40 ∨
            (0xD800 ≤ b % 0x08 * 0x40000 + b1 % 0x40 * 0x1000 + b2 % 0x40 * 0x40 + b3 % 0x40 ∧
              b % 0x08 * 0x40000 + b1 % 0x40 * 0x1000 + b2 % 0x40 * 0x40 + b3 % 0x40
                ≤ 0xDFFF)) := by omega
        have e4 : ¬ (b % 0x08 * 0x40000 + b1 % 0x40 * 0x1000 + b2 % 0x40 * 0x40 + b3 % 0x40
            ≤ 0xFFFF) := by omega
        rw [if_neg e1, if_neg e2, if_neg e3, if_neg e4]
        have f1 : 0xF0 + (b % 0x08 * 0x40000 + b1 % 0x40 * 0x1000 + b2 % 0x40 * 0x40
            + b3 % 0x40) / 0x40000 = b := by omega
        have f2 : 0x80 + (b % 0x08 * 0x40000 + b1 % 0x40 * 0x1000 + b2 % 0x40 * 0x40
            + b3 % 0x40) / 0x1000 % 0x40 = b1 := by omega
        have f3 : 0x80 + (b % 0x08 * 0x40000 + b1 % 0x40 * 0x1000 + b2 % 0x40 * 0x40
            + b3 % 0x40) / 0x40 % 0x40 = b2 := by omega
        have f4 : 0x80 + (b % 0x08 * 0x40000 + b1 % 0x40 * 0x1000 + b2 % 0x40 * 0x40
            + b3 % 0x40) % 0x40 = b3 := by omega
        rw [f1, f2, f3, f4]
    · intro X
      have c1 : ¬ b < 0x80 := by omega
      have c2 : ¬ b < 0xC2 := by omega
      have c3 : ¬ b < 0xE0 := by omega
      have c4 : ¬ b < 0xF0 := by omega
      have c5 : isCont b2 = true := by simp [isCont, h5, h6]
      have c6 : isCont b3 = true := by simp [isCont, h7, h8]
      simp [DecodeRune, c1, c2, c3, c4, h2, c5, c6, h3, h4]

theorem DecodeRune_size_pos (c : Nat) (s : Str) : 1 ≤ (DecodeRune (c :: s)).2 := by
  by_cases hb : c < 0x80
  · simp [DecodeRune, hb]
  · by_cases hv : (DecodeRune (c :: s)).1 = RuneError ∧ (DecodeRune (c :: s)).2 = 1
    · rw [hv.2]
    · obtain ⟨r, size, pre, post, hdec, _, hlen, _, _⟩ := DecodeRune_valid c s (by omega) hv
      rw [hdec, ← hlen]
      simp

/-! ### JSON strings: `unquote` inverts `quote` on well-formed UTF-8 -/

theorem unquote_step_ascii (b : Nat) (hb : b < 0x80) (f : Nat) (Y : Str) :
    unquoteBody (f + 1) ((if htmlSafe b then [b] else escapeByte b) ++ Y)
      = consBytes [b] (unquoteBody f Y) := by
  interval_cases b <;>
    simp [htmlSafe, escapeByte, unquoteBody, getu4, hexVal, hexDigit, EncodeRune, consBytes]

theorem unquote_step_raw (b : Nat) (pre Y : Str) (r size f : Nat) (hb : 0x80 ≤ b)
    (hlen : (b :: pre).length = size) (henc : EncodeRune r = b :: pre)
    (hdec : DecodeRune (b :: pre ++ Y) = (r, size)) :
    unquoteBody (f + 1) (b :: pre ++ Y) = consBytes (b :: pre) (unquoteBody f Y) := by
  have c1 : b ≠ 0x22 := by omega
  have c2 : b ≠ 0x5C := by omega
  have c3 : ¬ b < 0x20 := by omega
  have c4 : ¬ b < 0x80 := by omega
  have hd : DecodeRune (b :: (pre ++ Y)) = (r, size) := by simpa using hdec
  have hdrop : (b :: (pre ++ Y)).drop size = Y := by
    rw [← hlen]
    simp
  show unquoteBody (f + 1) (b :: (pre ++ Y)) = _
  rw [unquoteBody.eq_def]
  dsimp only
  rw [if_neg c1, if_neg c2, if_neg c3, if_neg c4, hd]
  simp only [henc, hdrop]

theorem unquote_step_2028 (r f : Nat) (Y : Str) (hr : r = 0x2028 ∨ r = 0x2029) :
    unquoteBody (f + 1) ([0x5C, 0x75, 0x32, 0x30, 0x32, hexDigit (r % 16)] ++ Y)
      = consBytes (EncodeRune r) (unquoteBody f Y) := by
  rcases hr with rfl | rfl <;>
    simp [unquoteBody, getu4, hexVal, hexDigit, EncodeRune, consBytes]

theorem unquote_quoteBody (n : Nat) :
    ∀ (s : Str), validLoop n s = true → s.length ≤ n → ∀ (rest : Str) (fuel : Nat),
      (quoteBody n s).length < fuel →
      unquoteBody fuel (quoteBody n s ++ 0x22 :: rest) = some (s, rest) := by
  induction n with
  | zero =>
    intro s _ hlen rest fuel hf
    have hs : s = [] := List.eq_nil_of_length_eq_zero (Nat.le_zero.mp hlen)
    subst hs
    cases fuel with
    | zero => simp at hf
    | succ f => simp [quoteBody, unquoteBody]
  | succ n ih =>
    intro s hv hlen rest fuel hf
    cases s with
    | nil =>
      cases fuel with
      | zero => simp at hf
      | succ f => simp [quoteBody, unquoteBody]
    | cons b s1 =>
      cases fuel with
      | zero => simp at hf
      | succ f =>
        by_cases hb : b < 0x80
        · have hdec : DecodeRune (b :: s1) = (b, 1) := by simp [DecodeRune, hb]
          have hv1 : validLoop n s1 = true := by
            unfold validLoop at hv
            rw [hdec] at hv
            simpa [RuneError, show b ≠ 0xFFFD by omega] using hv
          have hq : quoteBody (n + 1) (b :: s1)
              = (if htmlSafe b then [b] else escapeByte b) ++ quoteBody n s1 := by
            simp [quoteBody, hb]
          rw [hq] at hf ⊢
          have hf1 : (quoteBody n s1).length < f := by
            have hpos : 1 ≤ (if htmlSafe b then [b] else escapeByte b).length := by
              unfold escapeByte
              split_ifs <;> simp
            simp only [List.length_append] at hf
            omega
          rw [List.append_assoc, unquote_step_ascii b hb f,
            ih s1 hv1 (by simpa using hlen) rest f hf1]
          simp [consBytes]
        · have hb1 : 0x80 ≤ b := by omega
          have hnv : ¬ ((DecodeRune (b :: s1)).1 = RuneError ∧ (DecodeRune (b :: s1)).2 = 1) := by
            intro h
            unfold validLoop at hv
            simp [h] at hv
          obtain ⟨r, size, pre, post, hdec, hsplit, hplen, henc, hpre⟩ :=
            DecodeRune_valid b s1 hb1 hnv
          have hdrop : (b :: s1).drop size = post := by
            rw [hsplit, ← hplen]
            simp
          have htake : (b :: s1).take size = b :: pre := by
            rw [hsplit, ← hplen]
            simp
          have hv1 : validLoop n post = true := by
            unfold validLoop at hv
            rw [if_neg hnv, hdec] at hv
            simpa [hdrop] using hv
          have hpl : post.length ≤ n := by
            have := congrArg List.length hsplit
            simp only [List.length_cons, List.length_append] at this hlen
            omega
          have hnv' : ¬ (r = RuneError ∧ size = 1) := by
            rw [hdec] at hnv
            exact hnv
          by_cases h28 : r = 0x2028 ∨ r = 0x2029
          · have hq : quoteBody (n + 1) (b :: s1)
                = [0x5C, 0x75, 0x32, 0x30, 0x32, hexDigit (r % 16)] ++ quoteBody n post := by
              simp only [quoteBody, if_neg hb, hdec, if_neg hnv', if_pos h28, hdrop]
            rw [hq] at hf ⊢
            have hf1 : (quoteBody n post).length < f := by
              simp only [List.length_append, List.length_cons, List.length_nil] at hf
              omega
            rw [List.append_assoc, unquote_step_2028 r f _ h28, ih post hv1 hpl rest f hf1, henc]
            simp [consBytes, hsplit]
          · have hq : quoteBody (n + 1) (b :: s1) = b :: pre ++ quoteBody n post := by
              simp only [quoteBody, if_neg hb, hdec, if_neg hnv', if_neg h28, hdrop, htake]
            rw [hq] at hf ⊢
            have hf1 : (quoteBody n post).length < f := by
              simp only [List.length_append, List.length_cons] at hf
              omega
            rw [List.append_assoc,
              unquote_step_raw b pre _ r size f hb1 hplen henc (hpre _),
              ih post hv1 hpl rest f hf1]
            simp [consBytes, hsplit]

theorem quote_cons (s rest : Str) :
    quote s ++ rest = 0x22 :: (quoteBody s.length s ++ 0x22 :: rest) := by
  simp [quote]

theorem unquote_quote (s rest : Str) (hv : ValidString s = true) :
    unquoteBody (quoteBody s.length s ++ 0x22 :: rest).length
      (quoteBody s.length s ++ 0x22 :: rest) = some (s, rest) := by
  apply unquote_quoteBody s.length s hv (Nat.le_refl _)
  simp

/-! ### Reading back what `MarshalIndent` writes -/

theorem skipSpace_space (c : Nat) (s : Str) (h : isJSONSpace c = true) :
    skipSpace (c :: s) = skipSpace s := by
  simp [skipSpace, List.dropWhile, h]

theorem skipSpace_stop (c : Nat) (s : Str) (h : isJSONSpace c = false) :
    skipSpace (c :: s) = c :: s := by
  simp [skipSpace, List.dropWhile, h]

theorem parseValue_quote (n depth : Nat) (s rest : Str) (hv : ValidString s = true) :
    parseValue (n + 1) depth (quote s ++ rest) = some (JSON.str s, rest) := by
  rw [quote_cons, parseValue.eq_def]
  dsimp only
  rw [if_pos rfl, unquote_quote s rest hv]
  rfl

theorem parseMembers_pair (n depth : Nat) (k1 v1 k2 v2 rest : Str)
    (hk1 : ValidString k1 = true) (hv1 : ValidString v1 = true)
    (hk2 : ValidString k2 = true) (hv2 : ValidString v2 = true) :
    parseMembers (n + 3) depth
      (quote k1 ++ ([0x3A, 0x20] ++ (quote v1 ++ ([0x2C, 0x0A, 0x20, 0x20, 0x20, 0x20]
        ++ (quote k2 ++ ([0x3A, 0x20] ++ (quote v2 ++ ([0x0A, 0x20, 0x20, 0x7D] ++ rest))))))))
      = some ([(k1, JSON.str v1), (k2, JSON.str v2)], rest) := by
  have s1 : ∀ x : Str, skipSpace (0x3A :: x) = 0x3A :: x := fun x => skipSpace_stop _ _ (by decide)
  have s2 : ∀ x : Str, skipSpace (0x20 :: x) = skipSpace x := fun x => skipSpace_space _ _ (by decide)
  have s3 : ∀ x : Str, skipSpace (0x0A :: x) = skipSpace x := fun x => skipSpace_space _ _ (by decide)
  have s4 : ∀ x : Str, skipSpace (0x22 :: x) = 0x22 :: x := fun x => skipSpace_stop _ _ (by decide)
  have s5 : ∀ x : Str, skipSpace (0x2C :: x) = 0x2C :: x := fun x => skipSpace_stop _ _ (by decide)
  have s6 : ∀ x : Str, skipSpace (0x7D :: x) = 0x7D :: x := fun x => skipSpace_stop _ _ (by decide)
  have inner : parseMembers (n + 2) depth
      (quote k2 ++ ([0x3A, 0x20] ++ (quote v2 ++ ([0x0A, 0x20, 0x20, 0x7D] ++ rest))))
      = some ([(k2, JSON.str v2)], rest) := by
    rw [quote_cons, parseMembers.eq_def]
    dsimp only
    rw [if_neg (by decide), unquote_quote k2 _ hk2]
    dsimp only
    rw [List.cons_append, s1]
    dsimp only
    rw [if_neg (by decide), List.cons_append, s2, List.nil_append, quote_cons, s4, ← quote_cons,
      parseValue_quote n depth v2 _ hv2]
    dsimp only
    rw [List.cons_append, s3, List.cons_append, s2, List.cons_append, s2, List.cons_append, s6]
    dsimp only
    rw [if_neg (by decide), if_pos rfl]
    rfl
  rw [quote_cons, parseMembers.eq_def]
  dsimp only
  rw [if_neg (by decide), unquote_quote k1 _ hk1]
  dsimp only
  rw [List.cons_append, s1]
  dsimp only
  rw [if_neg (by decide), List.cons_append, s2, List.nil_append, quote_cons, s4, ← quote_cons,
    parseValue_quote (n + 1) depth v1 _ hv1]
  dsimp only
  rw [List.cons_append, s5]
  dsimp only
  rw [if_pos rfl, List.cons_append, s3, List.cons_append, s2, List.cons_append, s2,
    List.cons_append, s2, List.cons_append, s2, List.nil_append, quote_cons, s4, ← quote_cons,
    inner]
  rfl

theorem ValidString_role : ValidString (lit "role") = true := by decide

theorem ValidString_content : ValidString (lit "content") = true := by decide

theorem parseValue_objText (n depth : Nat) (m : ChatMessage) (rest : Str)
    (hd : depth < maxNestingDepth)
    (hr : ValidString m.Role = true) (hc : ValidString m.Content = true) :
    parseValue (n + 4) depth (objText m ++ rest) = some (messageJSON m, rest) := by
  have s2 : ∀ x : Str, skipSpace (0x20 :: x) = skipSpace x := fun x => skipSpace_space _ _ (by decide)
  have s3 : ∀ x : Str, skipSpace (0x0A :: x) = skipSpace x := fun x => skipSpace_space _ _ (by decide)
  have s4 : ∀ x : Str, skipSpace (0x22 :: x) = 0x22 :: x := fun x => skipSpace_stop _ _ (by decide)
  have hdepth : ¬ maxNestingDepth < depth + 1 := by omega
  unfold objText
  simp only [List.append_assoc]
  rw [List.cons_append, parseValue.eq_def]
  dsimp only
  rw [if_neg (by decide), if_neg (by decide), if_pos rfl, if_neg hdepth, List.cons_append, s3,
    List.cons_append, s2, List.cons_append, s2, List.cons_append, s2, List.cons_append, s2,
    List.nil_append, quote_cons, s4]
  dsimp only
  rw [if_neg (by decide), ← quote_cons,
    parseMembers_pair n (depth + 1) _ _ _ _ rest ValidString_role hr ValidString_content hc]
  rfl

theorem elemsText_head (m : ChatMessage) (ms : List ChatMessage) :
    ∃ t, elemsText (m :: ms) = 0x7B :: t := by
  cases ms with
  | nil => exact ⟨_, rfl⟩
  | cons m2 ms => exact ⟨_, rfl⟩

theorem parseElements_elemsText (ms : List ChatMessage) :
    ∀ (m : ChatMessage) (n : Nat) (rest : Str),
      (∀ x ∈ m :: ms, ValidString x.Role = true ∧ ValidString x.Content = true) →
      parseElements (n + (m :: ms).length + 4) 1 (elemsText (m :: ms) ++ rest)
        = some ((m :: ms).map messageJSON, rest) := by
  have s2 : ∀ x : Str, skipSpace (0x20 :: x) = skipSpace x := fun x => skipSpace_space _ _ (by decide)
  have s3 : ∀ x : Str, skipSpace (0x0A :: x) = skipSpace x := fun x => skipSpace_space _ _ (by decide)
  have s5 : ∀ x : Str, skipSpace (0x2C :: x) = 0x2C :: x := fun x => skipSpace_stop _ _ (by decide)
  have s6 : ∀ x : Str, skipSpace (0x5D :: x) = 0x5D :: x := fun x => skipSpace_stop _ _ (by decide)
  have s7 : ∀ x : Str, skipSpace (0x7B :: x) = 0x7B :: x := fun x => skipSpace_stop _ _ (by decide)
  have hd : 1 < maxNestingDepth := by decide
  induction ms with
  | nil =>
    intro m n rest hv
    obtain ⟨hr, hc⟩ := hv m (List.mem_cons_self _ _)
    show parseElements (n + 4 + 1) 1 ((objText m ++ [0x0A, 0x5D]) ++ rest) = _
    rw [parseElements.eq_def]
    dsimp only
    rw [List.append_assoc, parseValue_objText n 1 m _ hd hr hc]
    dsimp only
    rw [List.cons_append, s3, List.cons_append, s6]
    dsimp only
    rw [if_neg (by decide), if_pos rfl]
    rfl
  | cons m2 ms ih =>
    intro m n rest hv
    obtain ⟨hr, hc⟩ := hv m (List.mem_cons_self _ _)
    have hv2 : ∀ x ∈ m2 :: ms, ValidString x.Role = true ∧ ValidString x.Content = true :=
      fun x hx => hv x (List.mem_cons_of_mem _ hx)
    have hfuel : n + (m :: m2 :: ms).length + 4 = (n + (m2 :: ms).length + 4) + 1 := by
      simp only [List.length_cons]
      omega
    have hfuel2 : n + (m2 :: ms).length + 4 = (n + (m2 :: ms).length) + 4 := rfl
    show parseElements (n + (m :: m2 :: ms).length + 4) 1
      ((objText m ++ [0x2C, 0x0A, 0x20, 0x20] ++ elemsText (m2 :: ms)) ++ rest) = _
    rw [hfuel, parseElements.eq_def]
    dsimp only
    rw [List.append_assoc, List.append_assoc, hfuel2,
      parseValue_objText (n + (m2 :: ms).length) 1 m _ hd hr hc]
    dsimp only
    rw [List.cons_append, s5]
    dsimp only
    obtain ⟨t, ht⟩ := elemsText_head m2 ms
    rw [if_pos rfl, List.cons_append, s3, List.cons_append, s2, List.cons_append, s2,
      List.nil_append]
    have hskip : skipSpace (elemsText (m2 :: ms) ++ rest) = elemsText (m2 :: ms) ++ rest := by
      rw [ht, List.cons_append, s7]
    rw [hskip, ← hfuel2, ih m2 n rest hv2]
    rfl

theorem elemsText_length (ms : List ChatMessage) : ms.length ≤ (elemsText ms).length := by
  induction ms with
  | nil => simp
  | cons m ms ih =>
    cases ms with
    | nil => simp [elemsText, objText]
    | cons m2 ms =>
      simp only [elemsText, List.length_append, List.length_cons] at ih ⊢
      omega

theorem marshalMessage_eq (m : ChatMessage) :
    marshalMessage m = [0x20, 0x20] ++ objText m := by
  have h1 : lit "  \x7b\n    \"role\": "
      = [0x20, 0x20, 0x7B, 0x0A, 0x20, 0x20, 0x20, 0x20] ++ quote (lit "role") ++ [0x3A, 0x20] := by
    decide
  have h2 : lit ",\n    \"content\": "
      = [0x2C, 0x0A, 0x20, 0x20, 0x20, 0x20] ++ quote (lit "content") ++ [0x3A, 0x20] := by
    decide
  have h3 : lit "\n  \x7d" = [0x0A, 0x20, 0x20, 0x7D] := by decide
  unfold marshalMessage objText
  rw [h1, h2, h3]
  simp only [List.append_assoc, List.cons_append, List.nil_append]

theorem marshalMessages_eq (ms : List ChatMessage) (m : ChatMessage) :
    marshalMessages (m :: ms) ++ lit "\n]" = [0x20, 0x20] ++ elemsText (m :: ms) := by
  have h1 : lit "\n]" = [0x0A, 0x5D] := by decide
  have h2 : lit ",\n" = [0x2C, 0x0A] := by decide
  induction ms generalizing m with
  | nil =>
    simp only [marshalMessages, elemsText, marshalMessage_eq, h1, List.append_assoc]
  | cons m2 ms ih =>
    simp only [marshalMessages, elemsText, marshalMessage_eq, h2, List.append_assoc]
    rw [ih m2]
    simp only [List.append_assoc, List.cons_append, List.nil_append]

theorem parseJSON_MarshalIndent (h : Slice ChatMessage) (m : ChatMessage)
    (ms : List ChatMessage) (he : h.elems = m :: ms)
    (hv : ∀ x ∈ h.elems, ValidString x.Role = true ∧ ValidString x.Content = true) :
    parseJSON (MarshalIndent h) = some (JSON.arr ((m :: ms).map messageJSON)) := by
  have s2 : ∀ x : Str, skipSpace (0x20 :: x) = skipSpace x := fun x => skipSpace_space _ _ (by decide)
  have s3 : ∀ x : Str, skipSpace (0x0A :: x) = skipSpace x := fun x => skipSpace_space _ _ (by decide)
  have s7 : ∀ x : Str, skipSpace (0x7B :: x) = 0x7B :: x := fun x => skipSpace_stop _ _ (by decide)
  have s8 : ∀ x : Str, skipSpace (0x5B :: x) = 0x5B :: x := fun x => skipSpace_stop _ _ (by decide)
  have h0 : lit "[\n" = [0x5B, 0x0A] := by decide
  have htxt : MarshalIndent h = 0x5B :: 0x0A :: 0x20 :: 0x20 :: (elemsText (m :: ms) ++ []) := by
    unfold MarshalIndent
    rw [he]
    dsimp only
    rw [List.append_assoc, marshalMessages_eq, h0]
    simp
  rw [he] at hv
  obtain ⟨t, ht⟩ := elemsText_head m ms
  have hlen : (m :: ms).length ≤ (elemsText (m :: ms)).length := elemsText_length _
  obtain ⟨k, hk⟩ : ∃ k, 2 * (MarshalIndent h).length + 2 = (k + (m :: ms).length + 4) + 1 := by
    refine ⟨2 * (MarshalIndent h).length + 2 - ((m :: ms).length + 5), ?_⟩
    rw [htxt]
    simp only [List.length_cons, List.length_append, List.length_nil] at hlen ⊢
    omega
  unfold parseJSON
  rw [hk, htxt, s8, parseValue.eq_def]
  dsimp only
  rw [if_neg (by decide), if_pos rfl, if_neg (by decide), s3, s2, s2, ht, List.cons_append, s7]
  dsimp only
  rw [if_neg (by decide), ← List.cons_append, ← ht, parseElements_elemsText ms m k [] hv]
  rfl

theorem decodeMessage_messageJSON (old m : ChatMessage) :
    decodeMessage old (messageJSON m) = (m, false) := by
  have f1 : findField [lit "role", lit "content"] (lit "role") = some 0 := by decide
  have f2 : findField [lit "role", lit "content"] (lit "content") = some 1 := by decide
  simp [decodeMessage, messageJSON, decodeMessageFields, f1, f2, decodeString]

theorem decodeElems_messageJSON (cell : Nat → ChatMessage) (ms : List ChatMessage) :
    ∀ i, decodeElems decodeMessage cell i (ms.map messageJSON) = (ms, false) := by
  induction ms with
  | nil => intro i; rfl
  | cons m ms ih =>
    intro i
    simp [decodeElems, decodeMessage_messageJSON, ih (i + 1)]

theorem UnmarshalHistory_MarshalIndent (h cur : Slice ChatMessage)
    (hv : ∀ x ∈ h.elems, ValidString x.Role = true ∧ ValidString x.Content = true) :
    (UnmarshalHistory (MarshalIndent h) cur).1.elems = h.elems ∧
    (UnmarshalHistory (MarshalIndent h) cur).2 = false := by
  cases he : h.elems with
  | nil =>
    have hn : parseJSON (lit "null") = some JSON.null := by rfl
    have hb : parseJSON (lit "[]") = some (JSON.arr []) := by rfl
    unfold UnmarshalHistory MarshalIndent
    rw [he]
    dsimp only
    cases h.isNil with
    | true => simp [hn, decodeSlice, Slice.nil]
    | false => simp [hb, decodeSlice]
  | cons m ms =>
    unfold UnmarshalHistory
    rw [parseJSON_MarshalIndent h m ms he hv]
    have hd := decodeElems_messageJSON
      (fun i => cur.elems.getD i (cur.spare (i - cur.elems.length))) (m :: ms) 0
    rw [List.map_cons] at hd ⊢
    simp only [decodeSlice, hd, and_self]

/-! ### A trimmed non-empty line has a first token -/

theorem fieldsLoop_some_ne_nil (n : Nat) : ∀ (s f : Str), fieldsLoop n s (some f) ≠ [] := by
  induction n with
  | zero => intro s f; simp [fieldsLoop]
  | succ n ih =>
    intro s f
    cases s with
    | nil => simp [fieldsLoop]
    | cons c s =>
      unfold fieldsLoop
      split_ifs
      · simp
      · exact ih _ _

theorem trimLeftSpace_head (n : Nat) :
    ∀ s : Str, s.length ≤ n → trimLeftSpace n s = [] ∨
      ∃ c t, trimLeftSpace n s = c :: t ∧ IsSpace (DecodeRune (c :: t)).1 = false := by
  induction n with
  | zero =>
    intro s hs
    have : s = [] := List.eq_nil_of_length_eq_zero (Nat.le_zero.mp hs)
    subst this
    left; rfl
  | succ n ih =>
    intro s hs
    cases s with
    | nil => left; rfl
    | cons c s =>
      unfold trimLeftSpace
      split_ifs with h
      · apply ih
        have := DecodeRune_size_pos c s
        simp only [List.length_drop, List.length_cons] at hs ⊢
        omega
      · right
        exact ⟨c, s, rfl, by simpa using h⟩

theorem trimRightSpace_take (u : Str) : ∃ k, trimRightSpace u = u.take k := by
  unfold trimRightSpace
  split
  · exact ⟨0, by simp⟩
  · split_ifs
    · exact ⟨_, rfl⟩
    · exact ⟨_, rfl⟩

theorem IsSpace_DecodeRune_take (u : Str) (k : Nat)
    (h : IsSpace (DecodeRune (u.take k)).1 = true) : IsSpace (DecodeRune u).1 = true := by
  have hu : u = u.take k ++ u.drop k := (List.take_append_drop k u).symm
  cases ht : u.take k with
  | nil =>
    rw [ht] at h
    exact absurd h (by decide)
  | cons b t =>
    rw [ht] at h hu
    by_cases hb : b < 0x80
    · have h1 : DecodeRune (b :: t) = (b, 1) := by simp [DecodeRune, hb]
      have h2 : DecodeRune u = (b, 1) := by rw [hu]; simp [DecodeRune, hb]
      rw [h1] at h
      rw [h2]
      exact h
    · have hnv : ¬ ((DecodeRune (b :: t)).1 = RuneError ∧ (DecodeRune (b :: t)).2 = 1) := by
        intro hh
        rw [hh.1] at h
        exact absurd h (by decide)
      obtain ⟨r, size, pre, post, hdec, hsplit, _, _, hpre⟩ :=
        DecodeRune_valid b t (by omega) hnv
      rw [hdec] at h
      have : DecodeRune u = (r, size) := by
        rw [hu, hsplit, List.append_assoc]
        exact hpre _
      rw [this]
      exact h

theorem Fields_TrimSpace_ne_nil (s : Str) (h : TrimSpace s ≠ []) :
    Fields (TrimSpace s) ≠ [] := by
  unfold TrimSpace at h ⊢
  obtain ⟨k, hk⟩ := trimRightSpace_take (trimLeftSpace s.length s)
  rcases trimLeftSpace_head s.length s (Nat.le_refl _) with hu | ⟨c, t, hu, hns⟩
  · rw [hu] at h
    exact absurd rfl h
  · rw [hk] at h ⊢
    rw [hu] at h ⊢
    cases hw : (c :: t).take k with
    | nil => exact absurd hw h
    | cons b w =>
      unfold Fields
      rw [List.length_cons, fieldsLoop]
      have hsp : IsSpace (DecodeRune (b :: w)).1 = false := by
        cases hx : IsSpace (DecodeRune (b :: w)).1 with
        | false => rfl
        | true =>
          rw [← hw] at hx
          have := IsSpace_DecodeRune_take (c :: t) k hx
          rw [hns] at this
          exact absurd this (by decide)
      rw [hsp]
      simp only [Bool.false_eq_true, if_false]
      exact fieldsLoop_some_ne_nil _ _ _

theorem executor_ne_crashed (env : Env) (st : State) (input : Str) :
    executor env st input ≠ Outcome.crashed := by
  intro h
  unfold executor at h
  by_cases h0 : TrimSpace input = []
  · rw [if_pos h0] at h
    exact Outcome.noConfusion h
  · rw [if_neg h0] at h
    cases hf : Fields (TrimSpace input) with
    | nil => exact Fields_TrimSpace_ne_nil input h0 hf
    | cons command args =>
      rw [hf] at h
      dsimp only at h
      by_cases c1 : command = lit "/help"
      · rw [if_pos c1] at h
        exact Outcome.noConfusion h
      rw [if_neg c1] at h
      by_cases c2 : command = lit "/exit"
      · rw [if_pos c2] at h
        exact Outcome.noConfusion h
      rw [if_neg c2] at h
      by_cases c3 : command = lit "/clear"
      · rw [if_pos c3] at h
        exact Outcome.noConfusion h
      rw [if_neg c3] at h
      by_cases c4 : command = lit "/show"
      · rw [if_pos c4] at h
        cases args <;> exact Outcome.noConfusion h
      rw [if_neg c4] at h
      by_cases c5 : command = lit "/new"
      · rw [if_pos c5] at h
        cases args <;> exact Outcome.noConfusion h
      rw [if_neg c5] at h
      by_cases c6 : command = lit "/add"
      · rw [if_pos c6] at h
        cases args <;> exact Outcome.noConfusion h
      rw [if_neg c6] at h
      by_cases c7 : command = lit "/edit"
      · rw [if_pos c7] at h
        cases args <;> exact Outcome.noConfusion h
      rw [if_neg c7] at h
      by_cases c8 : command = lit "/diff"
      · rw [if_pos c8] at h
        exact Outcome.noConfusion h
      rw [if_neg c8] at h
      by_cases c9 : command = lit "/history"
      · rw [if_pos c9] at h
        exact Outcome.noConfusion h
      rw [if_neg c9] at h
      by_cases c10 : command = lit "/save"
      · rw [if_pos c10] at h
        cases args <;> exact Outcome.noConfusion h
      rw [if_neg c10] at h
      by_cases c11 : command = lit "/load"
      · rw [if_pos c11] at h
        cases args <;> exact Outcome.noConfusion h
      rw [if_neg c11] at h
      by_cases c12 : command = lit "/undo"
      · rw [if_pos c12] at h
        cases args <;> exact Outcome.noConfusion h
      rw [if_neg c12] at h
      by_cases c13 : command = lit "/search"
      · rw [if_pos c13] at h
        cases args <;> exact Outcome.noConfusion h
      rw [if_neg c13] at h
      by_cases c14 : command = lit "/image"
      · rw [if_pos c14] at h
        cases args <;> exact Outcome.noConfusion h
      rw [if_neg c14] at h
      by_cases c15 : command = lit "/model"
      · rw [if_pos c15] at h
        exact Outcome.noConfusion h
      rw [if_neg c15] at h
      by_cases c16 : command = lit "/change_model"
      · rw [if_pos c16] at h
        cases args <;> exact Outcome.noConfusion h
      rw [if_neg c16] at h
      exact Outcome.noConfusion h

theorem executor_exited_head (env : Env) (st : State) (input : Str)
    (h : executor env st input = Outcome.exited) :
    (Fields (TrimSpace input)).head? = some (lit "/exit") := by
  unfold executor at h
  by_cases h0 : TrimSpace input = []
  · rw [if_pos h0] at h
    exact Outcome.noConfusion h
  · rw [if_neg h0] at h
    cases hf : Fields (TrimSpace input) with
    | nil => rw [hf] at h; exact Outcome.noConfusion h
    | cons command args =>
      rw [hf] at h
      dsimp only at h
      show some command = some (lit "/exit")
      by_cases c1 : command = lit "/help"
      · rw [if_pos c1] at h
        exact Outcome.noConfusion h
      rw [if_neg c1] at h
      by_cases c2 : command = lit "/exit"
      · rw [c2]
      rw [if_neg c2] at h
      by_cases c3 : command = lit "/clear"
      · rw [if_pos c3] at h
        exact Outcome.noConfusion h
      rw [if_neg c3] at h
      by_cases c4 : command = lit "/show"
      · rw [if_pos c4] at h
        cases args <;> exact Outcome.noConfusion h
      rw [if_neg c4] at h
      by_cases c5 : command = lit "/new"
      · rw [if_pos c5] at h
        cases args <;> exact Outcome.noConfusion h
      rw [if_neg c5] at h
      by_cases c6 : command = lit "/add"
      · rw [if_pos c6] at h
        cases args <;> exact Outcome.noConfusion h
      rw [if_neg c6] at h
      by_cases c7 : command = lit "/edit"
      · rw [if_pos c7] at h
        cases args <;> exact Outcome.noConfusion h
      rw [if_neg c7] at h
      by_cases c8 : command = lit "/diff"
      · rw [if_pos c8] at h
        exact Outcome.noConfusion h
      rw [if_neg c8] at h
      by_cases c9 : command = lit "/history"
      · rw [if_pos c9] at h
        exact Outcome.noConfusion h
      rw [if_neg c9] at h
      by_cases c10 : command = lit "/save"
      · rw [if_pos c10] at h
        cases args <;> exact Outcome.noConfusion h
      rw [if_neg c10] at h
      by_cases c11 : command = lit "/load"
      · rw [if_pos c11] at h
        cases args <;> exact Outcome.noConfusion h
      rw [if_neg c11] at h
      by_cases c12 : command = lit "/undo"
      · rw [if_pos c12] at h
        cases args <;> exact Outcome.noConfusion h
      rw [if_neg c12] at h
      by_cases c13 : command = lit "/search"
      · rw [if_pos c13] at h
        cases args <;> exact Outcome.noConfusion h
      rw [if_neg c13] at h
      by_cases c14 : command = lit "/image"
      · rw [if_pos c14] at h
        cases args <;> exact Outcome.noConfusion h
      rw [if_neg c14] at h
      by_cases c15 : command = lit "/model"
      · rw [if_pos c15] at h
        exact Outcome.noConfusion h
      rw [if_neg c15] at h
      by_cases c16 : command = lit "/change_model"
      · rw [if_pos c16] at h
        cases args <;> exact Outcome.noConfusion h
      rw [if_neg c16] at h
      exact Outcome.noConfusion h

/-! ### The fuel of the JSON parser is only a recursion bound -/

theorem skipSpace_length (s : Str) : (skipSpace s).length ≤ s.length := by
  unfold skipSpace
  induction s with
  | nil => simp
  | cons c s ih =>
    simp only [List.dropWhile]
    split
    · simp only [List.length_cons]; omega
    · exact Nat.le_refl _

theorem dropWhile_length_le (p : Nat → Bool) (s : Str) : (s.dropWhile p).length ≤ s.length := by
  induction s with
  | nil => simp
  | cons c s ih =>
    simp only [List.dropWhile]
    split
    · simp only [List.length_cons]; omega
    · exact Nat.le_refl _

theorem consBytes_eq_some {bs : Str} {r : Option (Str × Str)} {x rest : Str}
    (h : consBytes bs r = some (x, rest)) : ∃ y, r = some (y, rest) := by
  unfold consBytes at h
  cases r with
  | none => simp at h
  | some p =>
    simp only [Option.map_some', Option.some.injEq, Prod.mk.injEq] at h
    exact ⟨p.1, by rw [← h.2]⟩

theorem unquoteBody_length (n : Nat) :
    ∀ (s x rest : Str), unquoteBody n s = some (x, rest) → rest.length < s.length := by
  induction n with
  | zero => intro s x rest h; simp [unquoteBody] at h
  | succ n ih =>
    intro s x rest h
    cases s with
    | nil => simp [unquoteBody] at h
    | cons c r =>
      rw [unquoteBody.eq_def] at h
      dsimp only at h
      have step : ∀ (bs u : Str), u.length ≤ r.length →
          consBytes bs (unquoteBody n u) = some (x, rest) → rest.length < (c :: r).length := by
        intro bs u hu hc
        obtain ⟨y, hy⟩ := consBytes_eq_some hc
        have := ih u y rest hy
        simp only [List.length_cons]
        omega
      by_cases c1 : c = 0x22
      · rw [if_pos c1] at h
        simp only [Option.some.injEq, Prod.mk.injEq] at h
        rw [← h.2]
        simp
      rw [if_neg c1] at h
      by_cases c2 : c = 0x5C
      · rw [if_pos c2] at h
        cases r with
        | nil => simp at h
        | cons e r1 =>
          dsimp only at h
          have d4 : (r1.drop 4).length ≤ (e :: r1).length := by
            simp only [List.length_drop, List.length_cons]; omega
          have d10 : (r1.drop 10).length ≤ (e :: r1).length := by
            simp only [List.length_drop, List.length_cons]; omega
          have d0 : r1.length ≤ (e :: r1).length := by simp
          split_ifs at h
          all_goals first
            | exact step _ _ d0 h
            | skip
          · split at h
            · simp at h
            · split_ifs at h
              · split at h
                · split_ifs at h
                  · exact step _ _ d10 h
                  · exact step _ _ d4 h
                · exact step _ _ d4 h
              · exact step _ _ d4 h
      rw [if_neg c2] at h
      by_cases c3 : c < 0x20
      · rw [if_pos c3] at h
        simp at h
      rw [if_neg c3] at h
      by_cases c4 : c < 0x80
      · rw [if_pos c4] at h
        exact step _ _ (Nat.le_refl _) h
      rw [if_neg c4] at h
      have hpos := DecodeRune_size_pos c r
      refine step _ _ ?_ h
      simp only [List.length_drop, List.length_cons]
      omega


theorem scanExp_length (s r : Str) (h : scanExp s = some r) : r.length ≤ s.length := by
  unfold scanExp at h
  cases s with
  | nil => simp at h; subst h; simp
  | cons e t =>
    dsimp only at h
    split_ifs at h
    · split at h
      · rename_i d u hm
        have hdu : (d :: u).length ≤ t.length := by
          rw [← hm]
          split
          · split_ifs <;> simp
          · simp
        split_ifs at h
        simp only [Option.some.injEq] at h
        subst h
        have := dropWhile_length_le isDigit u
        simp only [List.length_cons] at hdu ⊢
        omega
      · simp at h
    · simp only [Option.some.injEq] at h
      subst h
      simp

theorem scanFrac_length (s r : Str) (h : scanFrac s = some r) : r.length ≤ s.length := by
  unfold scanFrac at h
  cases s with
  | nil => simp at h; subst h; simp
  | cons dot t =>
    dsimp only at h
    split_ifs at h
    · cases t with
      | nil => simp at h
      | cons d u =>
        dsimp only at h
        split_ifs at h
        have h1 := scanExp_length _ _ h
        have h2 := dropWhile_length_le isDigit u
        simp only [List.length_cons]
        omega
    · exact scanExp_length _ _ h

theorem scanNumber_length (s r : Str) (h : scanNumber s = some r) : r.length < s.length := by
  unfold scanNumber at h
  split at h
  · rename_i d t hm
    have hdt : (d :: t).length ≤ s.length := by
      rw [← hm]
      split
      · split_ifs <;> simp
      · simp
    simp only [List.length_cons] at hdt
    split_ifs at h
    · have := scanFrac_length _ _ h
      omega
    · have h1 := scanFrac_length _ _ h
      have h2 := dropWhile_length_le isDigit t
      omega
  · simp at h


theorem skipSpace_cons_length {r r1 : Str} {d : Nat} (h : skipSpace r = d :: r1) :
    r1.length < r.length := by
  have := skipSpace_length r
  rw [h] at this
  simp only [List.length_cons] at this
  omega

/-- The fuel of the parser is only a bound on its recursion: a parse that
succeeds with some fuel consumes at least one byte and succeeds, with the
same result, with any fuel of at least twice the number of bytes consumed. -/
theorem parse_fuel (n : Nat) :
    (∀ d s v rest, parseValue n d s = some (v, rest) → rest.length < s.length ∧
      ∀ k, 2 * (s.length - rest.length) ≤ k → parseValue k d s = some (v, rest)) ∧
    (∀ d s vs rest, parseElements n d s = some (vs, rest) → rest.length < s.length ∧
      ∀ k, 2 * (s.length - rest.length) ≤ k → parseElements k d s = some (vs, rest)) ∧
    (∀ d s kvs rest, parseMembers n d s = some (kvs, rest) → rest.length < s.length ∧
      ∀ k, 2 * (s.length - rest.length) ≤ k → parseMembers k d s = some (kvs, rest)) := by
  induction n with
  | zero =>
    refine ⟨?_, ?_, ?_⟩
    · intro d s v rest h; simp [parseValue] at h
    · intro d s vs rest h; simp [parseElements] at h
    · intro d s kvs rest h; simp [parseMembers] at h
  | succ n ih =>
    obtain ⟨ihV, ihE, ihM⟩ := ih
    refine ⟨?_, ?_, ?_⟩
    · intro d s v rest h
      cases s with
      | nil => simp [parseValue] at h
      | cons c t =>
        rw [parseValue.eq_def] at h
        dsimp only at h
        by_cases c1 : c = 0x22
        · rw [if_pos c1] at h
          obtain ⟨p, hp, hpe⟩ := Option.map_eq_some'.mp h
          simp only [Prod.mk.injEq] at hpe
          obtain ⟨hv, hr⟩ := hpe
          have hl := unquoteBody_length _ t p.1 p.2 (by rw [hp])
          rw [hr] at hl
          refine ⟨by simp only [List.length_cons]; omega, ?_⟩
          intro k hk
          obtain ⟨k1, rfl⟩ : ∃ k1, k = k1 + 1 :=
            ⟨k - 1, by simp only [List.length_cons] at hk; omega⟩
          rw [parseValue.eq_def]
          dsimp only
          rw [if_pos c1, hp]
          simp [hv, hr]
        rw [if_neg c1] at h
        by_cases c2 : c = 0x5B
        · rw [if_pos c2] at h
          by_cases hd : maxNestingDepth < d + 1
          · rw [if_pos hd] at h
            simp at h
          rw [if_neg hd] at h
          cases hs : skipSpace t with
          | nil => rw [hs] at h; simp at h
          | cons d1 t1 =>
            rw [hs] at h
            dsimp only at h
            have hlen : (d1 :: t1).length ≤ t.length := by
              rw [← hs]
              exact skipSpace_length t
            simp only [List.length_cons] at hlen
            by_cases c5 : d1 = 0x5D
            · rw [if_pos c5] at h
              simp only [Option.some.injEq, Prod.mk.injEq] at h
              obtain ⟨hv, hr⟩ := h
              subst hr
              refine ⟨by simp only [List.length_cons]; omega, ?_⟩
              intro k hk
              obtain ⟨k1, rfl⟩ : ∃ k1, k = k1 + 1 :=
                ⟨k - 1, by simp only [List.length_cons] at hk; omega⟩
              rw [parseValue.eq_def]
              dsimp only
              rw [if_neg c1, if_pos c2, if_neg hd, hs]
              dsimp only
              rw [if_pos c5, hv]
            · rw [if_neg c5] at h
              obtain ⟨p, hp, hpe⟩ := Option.map_eq_some'.mp h
              simp only [Prod.mk.injEq] at hpe
              obtain ⟨hv, hr⟩ := hpe
              obtain ⟨hl, hk1⟩ := ihE (d + 1) (d1 :: t1) p.1 p.2 (by rw [hp])
              rw [hr] at hl hk1
              simp only [List.length_cons] at hl hk1
              refine ⟨by simp only [List.length_cons]; omega, ?_⟩
              intro k hk
              obtain ⟨k1, rfl⟩ : ∃ k1, k = k1 + 1 :=
                ⟨k - 1, by simp only [List.length_cons] at hk; omega⟩
              rw [parseValue.eq_def]
              dsimp only
              rw [if_neg c1, if_pos c2, if_neg hd, hs]
              dsimp only
              rw [if_neg c5, hk1 k1 (by simp only [List.length_cons] at hk; omega)]
              simp [hv]
        rw [if_neg c2] at h
        by_cases c3 : c = 0x7B
        · rw [if_pos c3] at h
          by_cases hd : maxNestingDepth < d + 1
          · rw [if_pos hd] at h
            simp at h
          rw [if_neg hd] at h
          cases hs : skipSpace t with
          | nil => rw [hs] at h; simp at h
          | cons d1 t1 =>
            rw [hs] at h
            dsimp only at h
            have hlen : (d1 :: t1).length ≤ t.length := by
              rw [← hs]
              exact skipSpace_length t
            simp only [List.length_cons] at hlen
            by_cases c5 : d1 = 0x7D
            · rw [if_pos c5] at h
              simp only [Option.some.injEq, Prod.mk.injEq] at h
              obtain ⟨hv, hr⟩ := h
              subst hr
              refine ⟨by simp only [List.length_cons]; omega, ?_⟩
              intro k hk
              obtain ⟨k1, rfl⟩ : ∃ k1, k = k1 + 1 :=
                ⟨k - 1, by simp only [List.length_cons] at hk; omega⟩
              rw [parseValue.eq_def]
              dsimp only
              rw [if_neg c1, if_neg c2, if_pos c3, if_neg hd, hs]
              dsimp only
              rw [if_pos c5, hv]
            · rw [if_neg c5] at h
              obtain ⟨p, hp, hpe⟩ := Option.map_eq_some'.mp h
              simp only [Prod.mk.injEq] at hpe
              obtain ⟨hv, hr⟩ := hpe
              obtain ⟨hl, hk1⟩ := ihM (d + 1) (d1 :: t1) p.1 p.2 (by rw [hp])
              rw [hr] at hl hk1
              simp only [List.length_cons] at hl hk1
              refine ⟨by simp only [List.length_cons]; omega, ?_⟩
              intro k hk
              obtain ⟨k1, rfl⟩ : ∃ k1, k = k1 + 1 :=
                ⟨k - 1, by simp only [List.length_cons] at hk; omega⟩
              rw [parseValue.eq_def]
              dsimp only
              rw [if_neg c1, if_neg c2, if_pos c3, if_neg hd, hs]
              dsimp only
              rw [if_neg c5, hk1 k1 (by simp only [List.length_cons] at hk; omega)]
              simp [hv]
        rw [if_neg c3] at h
        by_cases c6 : HasPrefix (c :: t) (lit "true") = true
        · rw [if_pos c6] at h
          simp only [Option.some.injEq, Prod.mk.injEq] at h
          obtain ⟨hv, hr⟩ := h
          subst hr
          refine ⟨by simp only [List.length_cons, List.length_drop]; omega, ?_⟩
          intro k hk
          obtain ⟨k1, rfl⟩ : ∃ k1, k = k1 + 1 :=
            ⟨k - 1, by simp only [List.length_cons, List.length_drop] at hk; omega⟩
          rw [parseValue.eq_def]
          dsimp only
          rw [if_neg c1, if_neg c2, if_neg c3, if_pos c6, hv]
        rw [if_neg c6] at h
        by_cases c7 : HasPrefix (c :: t) (lit "false") = true
        · rw [if_pos c7] at h
          simp only [Option.some.injEq, Prod.mk.injEq] at h
          obtain ⟨hv, hr⟩ := h
          subst hr
          refine ⟨by simp only [List.length_cons, List.length_drop]; omega, ?_⟩
          intro k hk
          obtain ⟨k1, rfl⟩ : ∃ k1, k = k1 + 1 :=
            ⟨k - 1, by simp only [List.length_cons, List.length_drop] at hk; omega⟩
          rw [parseValue.eq_def]
          dsimp only
          rw [if_neg c1, if_neg c2, if_neg c3, if_neg c6, if_pos c7, hv]
        rw [if_neg c7] at h
        by_cases c8 : HasPrefix (c :: t) (lit "null") = true
        · rw [if_pos c8] at h
          simp only [Option.some.injEq, Prod.mk.injEq] at h
          obtain ⟨hv, hr⟩ := h
          subst hr
          refine ⟨by simp only [List.length_cons, List.length_drop]; omega, ?_⟩
          intro k hk
          obtain ⟨k1, rfl⟩ : ∃ k1, k = k1 + 1 :=
            ⟨k - 1, by simp only [List.length_cons, List.length_drop] at hk; omega⟩
          rw [parseValue.eq_def]
          dsimp only
          rw [if_neg c1, if_neg c2, if_neg c3, if_neg c6, if_neg c7, if_pos c8, hv]
        rw [if_neg c8] at h
        obtain ⟨r, hr1, hpe⟩ := Option.map_eq_some'.mp h
        simp only [Prod.mk.injEq] at hpe
        obtain ⟨hv, hr⟩ := hpe
        subst hr
        have hl := scanNumber_length _ _ hr1
        refine ⟨hl, ?_⟩
        intro k hk
        obtain ⟨k1, rfl⟩ : ∃ k1, k = k1 + 1 := ⟨k - 1, by omega⟩
        rw [parseValue.eq_def]
        dsimp only
        rw [if_neg c1, if_neg c2, if_neg c3, if_neg c6, if_neg c7, if_neg c8, hr1]
        simp [hv]
    · intro d s vs rest h
      rw [parseElements.eq_def] at h
      dsimp only at h
      cases hv : parseValue n d s with
      | none => rw [hv] at h; simp at h
      | some p =>
        obtain ⟨v, r⟩ := p
        rw [hv] at h
        dsimp only at h
        obtain ⟨hl, hk1⟩ := ihV d s v r hv
        cases hs : skipSpace r with
        | nil => rw [hs] at h; simp at h
        | cons d1 r1 =>
          rw [hs] at h
          dsimp only at h
          have hlen := skipSpace_cons_length hs
          by_cases c1 : d1 = 0x2C
          · rw [if_pos c1] at h
            obtain ⟨p, hp, hpe⟩ := Option.map_eq_some'.mp h
            simp only [Prod.mk.injEq] at hpe
            obtain ⟨hvs, hr⟩ := hpe
            obtain ⟨hl2, hk2⟩ := ihE d (skipSpace r1) p.1 p.2 (by rw [hp])
            rw [hr] at hl2 hk2
            have hs1 := skipSpace_length r1
            refine ⟨by omega, ?_⟩
            intro k hk
            obtain ⟨k1, rfl⟩ : ∃ k1, k = k1 + 1 := ⟨k - 1, by omega⟩
            rw [parseElements.eq_def]
            dsimp only
            rw [hk1 k1 (by omega)]
            dsimp only
            rw [hs]
            dsimp only
            rw [if_pos c1, hk2 k1 (by omega)]
            simp [hvs]
          · rw [if_neg c1] at h
            by_cases c2 : d1 = 0x5D
            · rw [if_pos c2] at h
              simp only [Option.some.injEq, Prod.mk.injEq] at h
              obtain ⟨hvs, hr⟩ := h
              subst hr
              refine ⟨by omega, ?_⟩
              intro k hk
              obtain ⟨k1, rfl⟩ : ∃ k1, k = k1 + 1 := ⟨k - 1, by omega⟩
              rw [parseElements.eq_def]
              dsimp only
              rw [hk1 k1 (by omega)]
              dsimp only
              rw [hs]
              dsimp only
              rw [if_neg c1, if_pos c2, hvs]
            · rw [if_neg c2] at h
              simp at h
    · intro d s kvs rest h
      cases s with
      | nil => simp [parseMembers] at h
      | cons q t =>
        rw [parseMembers.eq_def] at h
        dsimp only at h
        by_cases cq : q ≠ 0x22
        · rw [if_pos cq] at h
          simp at h
        rw [if_neg cq] at h
        cases hkey : unquoteBody t.length t with
        | none => rw [hkey] at h; simp at h
        | some pk =>
          obtain ⟨key, r⟩ := pk
          rw [hkey] at h
          dsimp only at h
          have hlk := unquoteBody_length _ t key r hkey
          cases hs : skipSpace r with
          | nil => rw [hs] at h; simp at h
          | cons col r1 =>
            rw [hs] at h
            dsimp only at h
            have hlen := skipSpace_cons_length hs
            by_cases cc : col ≠ 0x3A
            · rw [if_pos cc] at h
              simp at h
            rw [if_neg cc] at h
            cases hv : parseValue n d (skipSpace r1) with
            | none => rw [hv] at h; simp at h
            | some pv =>
              obtain ⟨v, r2⟩ := pv
              rw [hv] at h
              dsimp only at h
              obtain ⟨hl, hk1⟩ := ihV d (skipSpace r1) v r2 hv
              have hs1 := skipSpace_length r1
              cases hs2 : skipSpace r2 with
              | nil => rw [hs2] at h; simp at h
              | cons d1 r3 =>
                rw [hs2] at h
                dsimp only at h
                have hlen2 := skipSpace_cons_length hs2
                by_cases c1 : d1 = 0x2C
                · rw [if_pos c1] at h
                  obtain ⟨p, hp, hpe⟩ := Option.map_eq_some'.mp h
                  simp only [Prod.mk.injEq] at hpe
                  obtain ⟨hkv, hr⟩ := hpe
                  obtain ⟨hl2, hk2⟩ := ihM d (skipSpace r3) p.1 p.2 (by rw [hp])
                  rw [hr] at hl2 hk2
                  have hs3 := skipSpace_length r3
                  refine ⟨by simp only [List.length_cons]; omega, ?_⟩
                  intro k hk
                  simp only [List.length_cons] at hk
                  obtain ⟨k1, rfl⟩ : ∃ k1, k = k1 + 1 := ⟨k - 1, by omega⟩
                  rw [parseMembers.eq_def]
                  dsimp only
                  rw [if_neg cq, hkey]
                  dsimp only
                  rw [hs]
                  dsimp only
                  rw [if_neg cc, hk1 k1 (by omega)]
                  dsimp only
                  rw [hs2]
                  dsimp only
                  rw [if_pos c1, hk2 k1 (by omega)]
                  simp [hkv]
                · rw [if_neg c1] at h
                  by_cases c2 : d1 = 0x7D
                  · rw [if_pos c2] at h
                    simp only [Option.some.injEq, Prod.mk.injEq] at h
                    obtain ⟨hkv, hr⟩ := h
                    subst hr
                    refine ⟨by simp only [List.length_cons]; omega, ?_⟩
                    intro k hk
                    simp only [List.length_cons] at hk
                    obtain ⟨k1, rfl⟩ : ∃ k1, k = k1 + 1 := ⟨k - 1, by omega⟩
                    rw [parseMembers.eq_def]
                    dsimp only
                    rw [if_neg cq, hkey]
                    dsimp only
                    rw [hs]
                    dsimp only
                    rw [if_neg cc, hk1 k1 (by omega)]
                    dsimp only
                    rw [hs2]
                    dsimp only
                    rw [if_neg c1, if_pos c2, hkv]
                  · rw [if_neg c2] at h
                    simp at h

/-- The fuel `parseJSON` passes is never the reason for a rejection: whenever
some amount of fuel reads the input as `v`, `parseJSON` returns `v`. -/
theorem parseJSON_of_fuel (data : Str) (n : Nat) (v : JSON) (r : Str)
    (h : parseValue n 0 (skipSpace data) = some (v, r)) (hr : skipSpace r = []) :
    parseJSON data = some v := by
  obtain ⟨hl, hk⟩ := (parse_fuel n).1 0 (skipSpace data) v r h
  have hs := skipSpace_length data
  unfold parseJSON
  rw [hk (2 * data.length + 2) (by omega)]
  simp [hr]

/-! ### Claims -/

set_option maxRecDepth 100000 in
/-- C1: for a response body made of newline-terminated lines,
`getStreamingResponse` appends exactly one message, with role `assistant`,
whose content is the concatenation, in the order received, of the first
choice's delta text of every line before the first `data: [DONE]` line that
starts with `data: ` and decodes to a fragment with at least one choice;
other lines contribute nothing.  The line `data: [DONE]` with its line break
is such a terminating line, and the lines with the deltas `a`, `b`, `c`
followed by it yield `abc`. -/
theorem C1_streamed_content_is_concatenation_of_deltas (st : State) (lines : List Str)
    (hlines : ∀ l ∈ lines, 0x0A ∉ l) :
    (getStreamingResponse ⟨some (bodyOfLines lines)⟩ st).chatHistory.elems
      = st.chatHistory.elems ++
          [⟨lit "assistant", streamedText (lines.map fun l => l ++ [0x0A])⟩] ∧
    isDoneLine (lit "data: [DONE]" ++ [0x0A]) = true ∧
    streamedText
      ([deltaLine (lit "a"), deltaLine (lit "b"), deltaLine (lit "c"), lit "data: [DONE]"].map
        fun l => l ++ [0x0A]) = lit "abc" := by
  refine ⟨?_, by decide, by decide⟩
  rw [getStreamingResponse_elems]
  dsimp only
  rw [streamLoop_lines lines _ [] hlines (Nat.lt_succ_self _)]
  simp

set_option maxRecDepth 100000 in
/-- Witness for C1: a line without the prefix and the malformed line
`data: {not json}` between the deltas `a` and `b`, and a delta after
`data: [DONE]`: the appended content is `ab`. -/
theorem C1_streamed_content_is_concatenation_of_deltas_witness :
    (getStreamingResponse
      ⟨some (bodyOfLines [deltaLine (lit "a"), lit ": keep-alive", lit "data: \x7bnot json\x7d",
        deltaLine (lit "b"), lit "data: [DONE]", deltaLine (lit "c")])⟩
      (State.init FS.empty)).chatHistory.elems
      = (State.init FS.empty).chatHistory.elems ++ [⟨lit "assistant", lit "ab"⟩] :=
  ((C1_streamed_content_is_concatenation_of_deltas (State.init FS.empty)
    [deltaLine (lit "a"), lit ": keep-alive", lit "data: \x7bnot json\x7d",
      deltaLine (lit "b"), lit "data: [DONE]", deltaLine (lit "c")] (by decide)).1).trans
    (by decide)

/-- C2 (counterexample): the line `hi ` (with a trailing space) is not a
command, and after `executor` the last transcript element, the completion call
having failed, has content `hi`, not the line itself. -/
theorem C2_content_is_not_the_untrimmed_line :
    Fields (TrimSpace (lit "hi ")) = [lit "hi"] ∧ lit "hi" ∉ knownCommands ∧
    ((executor ⟨none⟩ (State.init FS.empty) (lit "hi ")).transcript.bind List.getLast?)
      = some ⟨lit "user", lit "hi"⟩ ∧
    ((executor ⟨none⟩ (State.init FS.empty) (lit "hi ")).transcript.bind List.getLast?)
      ≠ some ⟨lit "user", lit "hi "⟩ := by
  decide

/-- C2 (amended): for every line `L` whose first token (of the trimmed line) is
not a known command, `executor` returns and the transcript is the previous
one followed by the user message whose content is `TrimSpace(L)`, and then by
exactly one assistant message when the completion call got a response, by
nothing when it failed to reach the network. -/
theorem C2_chat_turn_records_trimmed_line (env : Env) (st : State) (L command : Str)
    (args : List Str) (hf : Fields (TrimSpace L) = command :: args)
    (hk : command ∉ knownCommands) :
    (env.completion = none →
      (executor env st L).transcript
        = some (st.chatHistory.elems ++ [⟨lit "user", TrimSpace L⟩])) ∧
    (∀ body, env.completion = some body →
      ∃ reply : ChatMessage, reply.Role = lit "assistant" ∧
        (executor env st L).transcript
          = some (st.chatHistory.elems ++ [⟨lit "user", TrimSpace L⟩, reply])) := by
  rw [executor_default env st L command args hf hk]
  constructor
  · intro hc
    simp [Outcome.transcript, getStreamingResponse_elems, hc, Slice.append]
  · intro body hc
    refine ⟨⟨lit "assistant", streamLoop (body.length + 1) body []⟩, rfl, ?_⟩
    simp [Outcome.transcript, getStreamingResponse_elems, hc, Slice.append]

/-- Witness for C2 (amended): the line `  what is Go?  ` is recorded as
`what is Go?`. -/
theorem C2_chat_turn_records_trimmed_line_witness :
    (executor ⟨none⟩ (State.init FS.empty) (lit "  what is Go?  ")).transcript
      = some ((State.init FS.empty).chatHistory.elems ++ [⟨lit "user", lit "what is Go?"⟩]) :=
  (C2_chat_turn_records_trimmed_line ⟨none⟩ (State.init FS.empty) (lit "  what is Go?  ")
    (lit "what") [lit "is", lit "Go?"] (by decide) (by decide)).1 rfl

/-- C3: undo is single-level.  `handleEditCommand(P)` runs when the file holds
`c1`; the file then changes to `c2` (`fs2`) and `handleEditCommand(P)` runs
again; the file changes again (`fs3`); a `handleUndoCommand(P)` that succeeds
then leaves the file holding `c2`, the content at the second capture, and
consumes the snapshot. -/
theorem C3_undo_restores_second_capture (st : State) (P c1 c2 : Str) (fs2 fs3 : FS)
    (h1 : st.fs.readFile P = some c1) (h2 : fs2.readFile P = some c2)
    (hok : undoSucceeds
      { handleEditCommand { handleEditCommand st P with fs := fs2 } P with fs := fs3 } P = true) :
    (handleEditCommand st P).undoHistory P = some c1 ∧
    (handleEditCommand { handleEditCommand st P with fs := fs2 } P).undoHistory P = some c2 ∧
    (handleUndoCommand
      { handleEditCommand { handleEditCommand st P with fs := fs2 } P with fs := fs3 } P).fs.content P
      = some c2 ∧
    (handleUndoCommand
      { handleEditCommand { handleEditCommand st P with fs := fs2 } P with fs := fs3 } P).undoHistory P
      = none := by
  have e1 : (handleEditCommand st P).undoHistory P = some c1 := by
    simp [handleEditCommand, h1]
  have e2 : (handleEditCommand { handleEditCommand st P with fs := fs2 } P).undoHistory P
      = some c2 := by
    simp [handleEditCommand, h2]
  refine ⟨e1, e2, ?_, ?_⟩
  · unfold undoSucceeds at hok
    simp only [e2] at hok
    unfold handleUndoCommand
    simp only [e2]
    cases hw : fs3.writeFile P c2 with
    | none => simp [hw] at hok
    | some fs4 => simpa using writeFile_content hw
  · unfold undoSucceeds at hok
    simp only [e2] at hok
    unfold handleUndoCommand
    simp only [e2]
    cases hw : fs3.writeFile P c2 with
    | none => simp [hw] at hok
    | some fs4 => simp

/-- Witness for C3: the file `f` holds `one`, then `two`, then `three`; undo
restores `two`. -/
theorem C3_undo_restores_second_capture_witness :
    (handleUndoCommand
      { handleEditCommand
          { handleEditCommand
              (State.init ⟨fun q => if q = lit "f" then some (Node.file (lit "one") true true) else none,
                fun _ => true⟩) (lit "f") with
            fs := ⟨fun q => if q = lit "f" then some (Node.file (lit "two") true true) else none,
              fun _ => true⟩ } (lit "f") with
        fs := ⟨fun q => if q = lit "f" then some (Node.file (lit "three") true true) else none,
          fun _ => true⟩ } (lit "f")).fs.content (lit "f") = some (lit "two") :=
  (C3_undo_restores_second_capture
    (State.init ⟨fun q => if q = lit "f" then some (Node.file (lit "one") true true) else none,
      fun _ => true⟩)
    (lit "f") (lit "one") (lit "two")
    ⟨fun q => if q = lit "f" then some (Node.file (lit "two") true true) else none, fun _ => true⟩
    ⟨fun q => if q = lit "f" then some (Node.file (lit "three") true true) else none, fun _ => true⟩
    (by decide) (by decide) (by decide)).2.2.1

/-- C4 (the code at the failing input): with no file at `foo.py`,
`handleNewCommand("foo.py")` looks up `fileTemplates["py"]`, which is not a
key of the map, and creates an empty file; the python template is registered
under the key `python` and is not empty. -/
theorem C4_new_py_creates_empty_file :
    fileTemplates (lit "py") = [] ∧
    (handleNewCommand (State.init FS.empty) (lit "foo.py")).fs.content (lit "foo.py") = some [] ∧
    (handleNewCommand (State.init FS.empty) (lit "foo.py")).fs.content (lit "foo.py")
      ≠ some (fileTemplates (lit "python")) := by
  decide

/-- C5: for a directory `path`, every path `handleAddCommand` appends to
`addedFiles` is `path/name` for an entry `name` of the directory that is not a
directory, and names a readable regular file whose first 512 bytes contain no
zero byte. -/
theorem C5_add_directory_only_text_entries (st : State) (path : Str)
    (entries : List (Str × Bool)) (listable : Bool)
    (hdir : st.fs.node path = some (Node.dir entries listable)) :
    ∃ new : List Str,
      (handleAddCommand st path).addedFiles = st.addedFiles ++ new ∧
      ∀ q ∈ new, ∃ name, (name, false) ∈ entries ∧ q = path ++ lit "/" ++ name ∧
        ∃ c w, st.fs.node q = some (Node.file c true w) ∧ ∀ b ∈ c.take 512, b ≠ 0 := by
  unfold handleAddCommand
  simp only [FS.stat, hdir, FS.readDir]
  cases listable with
  | false => exact ⟨[], by simp, by simp⟩
  | true =>
    obtain ⟨new, hnew, hall⟩ := addEntries_spec st.fs path entries st.addedFiles
    refine ⟨new, by simpa using hnew, ?_⟩
    intro q hq
    obtain ⟨name, hmem, heq, htxt⟩ := hall q hq
    exact ⟨name, hmem, heq, isTextFile_true htxt⟩

/-- Witness for C5: of the entries `b` (binary), `s` (subdirectory) and `t`
(text) of the directory `d`, only `d/t` is added. -/
theorem C5_add_directory_only_text_entries_witness :
    (handleAddCommand (State.init FS.addExample) (lit "d")).addedFiles = [lit "d/t"] ∧
    ∃ new : List Str,
      (handleAddCommand (State.init FS.addExample) (lit "d")).addedFiles
        = (State.init FS.addExample).addedFiles ++ new ∧
      ∀ q ∈ new, ∃ name,
        (name, false) ∈ [(lit "b", false), (lit "s", true), (lit "t", false)] ∧
        q = lit "d" ++ lit "/" ++ name ∧
        ∃ c w, (State.init FS.addExample).fs.node q = some (Node.file c true w) ∧
          ∀ b ∈ c.take 512, b ≠ 0 :=
  ⟨by decide,
    C5_add_directory_only_text_entries (State.init FS.addExample) (lit "d")
      [(lit "b", false), (lit "s", true), (lit "t", false)] true (by decide)⟩

set_option maxRecDepth 100000 in
/-- C6 (counterexample): a transcript whose user message is the byte `0xFF`
is saved with that byte written as the escape for U+FFFD, and loading the
file back yields the three bytes of U+FFFD instead: the transcript differs
from the one saved.  The same happens in a session: the line `0xFF` is
dispatched as a chat turn, then `/save h.json` and `/load h.json`. -/
theorem C6_invalid_utf8_does_not_round_trip :
    State.invalidTextExample.chatHistory.elems = [⟨lit "user", [0xFF]⟩] ∧
    (State.invalidTextExample.fs.writeFile (lit "h.json")
      (MarshalIndent State.invalidTextExample.chatHistory)).isSome = true ∧
    loadReportsError (handleSaveCommand State.invalidTextExample (lit "h.json")) (lit "h.json")
      = false ∧
    (handleLoadCommand (handleSaveCommand State.invalidTextExample (lit "h.json"))
      (lit "h.json")).chatHistory.elems = [⟨lit "user", [0xEF, 0xBF, 0xBD]⟩] ∧
    (handleLoadCommand (handleSaveCommand State.invalidTextExample (lit "h.json"))
      (lit "h.json")).chatHistory.elems ≠ State.invalidTextExample.chatHistory.elems ∧
    (run (State.init FS.empty) [⟨[0xFF], ⟨none⟩, none⟩]).transcript
      = some [⟨lit "system", SYSTEM_PROMPT⟩, ⟨lit "user", [0xFF]⟩] ∧
    (run (State.init FS.empty)
      [⟨[0xFF], ⟨none⟩, none⟩, ⟨lit "/save h.json", ⟨none⟩, none⟩,
        ⟨lit "/load h.json", ⟨none⟩, none⟩]).transcript
      = some [⟨lit "system", SYSTEM_PROMPT⟩, ⟨lit "user", [0xEF, 0xBF, 0xBD]⟩] := by
  decide

/-- C6 (amended): for a transcript whose roles and contents are well-formed
UTF-8, if `handleSaveCommand(f)` writes the file, then after
`handleLoadCommand(f)` the transcript equals the one saved, element for
element and in the same order; and if the file can be read back, the load
reports no error. -/
theorem C6_save_then_load_round_trip (st : State) (f : Str)
    (hvalid : ∀ m ∈ st.chatHistory.elems,
      ValidString m.Role = true ∧ ValidString m.Content = true)
    (hsave : (st.fs.writeFile f (MarshalIndent st.chatHistory)).isSome = true) :
    (handleLoadCommand (handleSaveCommand st f) f).chatHistory.elems = st.chatHistory.elems ∧
    ((handleSaveCommand st f).fs.readFile f ≠ none →
      loadReportsError (handleSaveCommand st f) f = false) := by
  cases hw : st.fs.writeFile f (MarshalIndent st.chatHistory) with
  | none => simp [hw] at hsave
  | some fs1 =>
    have hs : handleSaveCommand st f = { st with fs := fs1 } := by
      simp [handleSaveCommand, hw]
    rw [hs]
    unfold handleLoadCommand loadReportsError
    dsimp only
    cases hr : fs1.readFile f with
    | none => simp
    | some data =>
      have hdata : data = MarshalIndent st.chatHistory := by
        have h1 := writeFile_content hw
        have h2 := readFile_content hr
        rw [h1] at h2
        exact (Option.some.inj h2).symm
      subst hdata
      have hu := UnmarshalHistory_MarshalIndent st.chatHistory st.chatHistory hvalid
      exact ⟨hu.1, fun _ => hu.2⟩

set_option maxRecDepth 100000 in
/-- Witness for C6 (amended): a transcript with a quote, `<`, a line break
and non-ASCII runes is saved to `h.json` and loaded back unchanged. -/
theorem C6_save_then_load_round_trip_witness :
    (handleLoadCommand (handleSaveCommand State.roundTripExample (lit "h.json"))
      (lit "h.json")).chatHistory.elems
      = [⟨lit "system", SYSTEM_PROMPT⟩,
          ⟨lit "user", [0x22, 0x3C, 0x0A, 0xC3, 0xA9, 0xE2, 0x80, 0xA8]⟩] :=
  (C6_save_then_load_round_trip State.roundTripExample (lit "h.json") (by decide)
    (by decide)).1

/-- C7 (the code at the failing input): the file holds `[0]`, which is JSON
but not an array of messages.  `handleLoadCommand` reports an error, yet
`json.Unmarshal` has already stored into `chatHistory`: of the prior
transcript of three messages a single one is left. -/
theorem C7_failed_load_truncates_transcript :
    State.loadExample.chatHistory.elems
      = [⟨lit "system", lit "be brief"⟩, ⟨lit "user", lit "hi"⟩, ⟨lit "assistant", lit "yo"⟩] ∧
    State.loadExample.fs.readFile (lit "h.json") = some (lit "[0]") ∧
    loadReportsError State.loadExample (lit "h.json") = true ∧
    (handleLoadCommand State.loadExample (lit "h.json")).chatHistory.elems.length = 1 ∧
    (handleLoadCommand State.loadExample (lit "h.json")).chatHistory.elems
      ≠ State.loadExample.chatHistory.elems := by
  decide

/-- C8 (counterexample): `f` has the snapshot `old` and cannot be written;
after `handleUndoCommand("f")` the write has failed and the snapshot map
still holds `old` for `f`. -/
theorem C8_snapshot_kept_when_write_fails :
    State.readOnlyExample.undoHistory (lit "f") = some (lit "old") ∧
    State.readOnlyExample.fs.writeFile (lit "f") (lit "old") = none ∧
    (handleUndoCommand State.readOnlyExample (lit "f")).undoHistory (lit "f")
      = some (lit "old") := by
  refine ⟨by decide, ?_, by decide⟩
  simp [FS.writeFile, State.readOnlyExample, State.init, FS.readOnlyExample]

/-- C8 (amended): for a path `P` with the snapshot `c`, if writing `c` to `P`
succeeds then after `handleUndoCommand(P)` the file holds `c` and the map has
no entry for `P`; if the write fails, the map is left as it was, so the entry
for `P` stays. -/
theorem C8_snapshot_removed_iff_write_succeeds (st : State) (P c : Str)
    (hsnap : st.undoHistory P = some c) :
    (∀ fs1, st.fs.writeFile P c = some fs1 →
      (handleUndoCommand st P).undoHistory P = none ∧
      (handleUndoCommand st P).fs.content P = some c) ∧
    (st.fs.writeFile P c = none →
      (handleUndoCommand st P).undoHistory = st.undoHistory ∧
      (handleUndoCommand st P).undoHistory P = some c) := by
  constructor
  · intro fs1 hw
    unfold handleUndoCommand
    simp only [hsnap, hw]
    exact ⟨by simp, writeFile_content hw⟩
  · intro hw
    refine ⟨?_, ?_⟩ <;> simp [handleUndoCommand, hsnap, hw]

/-- Witness for C8 (amended): the snapshot `old` of the writable file `f` is
written back and removed. -/
theorem C8_snapshot_removed_iff_write_succeeds_witness :
    (handleUndoCommand
      { State.init ⟨fun q => if q = lit "f" then some (Node.file (lit "new") true true) else none,
          fun _ => true⟩ with
        undoHistory := fun q => if q = lit "f" then some (lit "old") else none }
      (lit "f")).undoHistory (lit "f") = none :=
  ((C8_snapshot_removed_iff_write_succeeds
    { State.init ⟨fun q => if q = lit "f" then some (Node.file (lit "new") true true) else none,
        fun _ => true⟩ with
      undoHistory := fun q => if q = lit "f" then some (lit "old") else none }
    (lit "f") (lit "old") (by decide)).1 _ rfl).1

/-- C9: from the initial state, after any sequence of dispatches none of which
is a `/load` command (whatever the network answers and whatever other
programs do to the files in between), the transcript starts with the seeded
system message, so it is not empty; and every further dispatch that is not a
`/load` command leaves that transcript a prefix of the new one. -/
theorem C9_transcript_append_only (fs0 : FS) (inputs : List Input) (st : State)
    (hl : ∀ i ∈ inputs, isLoadLine i.line = false)
    (hrun : run (State.init fs0) inputs = Outcome.running st) :
    st.chatHistory.elems ≠ [] ∧
    st.chatHistory.elems.head? = some ⟨lit "system", SYSTEM_PROMPT⟩ ∧
    (State.init fs0).chatHistory.elems = [⟨lit "system", SYSTEM_PROMPT⟩] ∧
    ∀ (env : Env) (line : Str) (st1 : State), isLoadLine line = false →
      executor env st line = Outcome.running st1 →
      st.chatHistory.elems <+: st1.chatHistory.elems := by
  have hp := run_invariant inputs (State.init fs0) st hl hrun
  have hinit : (State.init fs0).chatHistory.elems = [⟨lit "system", SYSTEM_PROMPT⟩] := rfl
  rw [hinit] at hp
  obtain ⟨t, ht⟩ := hp
  refine ⟨?_, ?_, hinit, ?_⟩
  · rw [← ht]; simp
  · rw [← ht]; simp
  · intro env line st1 hl1 hex
    exact executor_appends env st st1 line hl1 hex

set_option maxRecDepth 100000 in
/-- Witness for C9: a chat turn that gets no response, `/diff`, and a chat
turn answered with the delta `a`. -/
theorem C9_transcript_append_only_witness :
    (run (State.init FS.empty)
      [⟨lit "hello", ⟨none⟩, none⟩, ⟨lit "/diff", ⟨none⟩, none⟩,
        ⟨lit "again", ⟨some (lit "data: \x7b\"choices\":[\x7b\"delta\":\x7b\"content\":\"a\"\x7d\x7d]\x7d\n")⟩,
          none⟩]).transcript
      = some [⟨lit "system", SYSTEM_PROMPT⟩, ⟨lit "user", lit "hello"⟩, ⟨lit "user", lit "again"⟩,
          ⟨lit "assistant", lit "a"⟩] ∧
    ∀ st : State,
      run (State.init FS.empty)
        [⟨lit "hello", ⟨none⟩, none⟩, ⟨lit "/diff", ⟨none⟩, none⟩,
          ⟨lit "again", ⟨some (lit "data: \x7b\"choices\":[\x7b\"delta\":\x7b\"content\":\"a\"\x7d\x7d]\x7d\n")⟩,
            none⟩] = Outcome.running st →
      st.chatHistory.elems.head? = some ⟨lit "system", SYSTEM_PROMPT⟩ :=
  ⟨by decide, fun st h =>
    (C9_transcript_append_only FS.empty _ st (by decide) h).2.1⟩

/-- C10 (the code at the failing input): `executor` has no case for `/reset`,
so the line is a chat turn: the transcript keeps all its messages and gains
the user message `/reset` (and the assistant reply when the completion
service answers, here with body `body`), and the tracked files are
untouched. -/
theorem C10_reset_is_sent_as_chat_turn (st : State) (body : Str) :
    (executor ⟨none⟩ st (lit "/reset")).transcript
      = some (st.chatHistory.elems ++ [⟨lit "user", lit "/reset"⟩]) ∧
    (executor ⟨some body⟩ st (lit "/reset")).transcript
      = some (st.chatHistory.elems ++
          [⟨lit "user", lit "/reset"⟩, ⟨lit "assistant", streamLoop (body.length + 1) body []⟩]) ∧
    (executor ⟨none⟩ st (lit "/reset")).tracked = some st.addedFiles ∧
    (executor ⟨some body⟩ st (lit "/reset")).tracked = some st.addedFiles := by
  have hf : Fields (TrimSpace (lit "/reset")) = [lit "/reset"] := by decide
  have hk : lit "/reset" ∉ knownCommands := by decide
  have ht : TrimSpace (lit "/reset") = lit "/reset" := by decide
  rw [executor_default ⟨none⟩ st (lit "/reset") (lit "/reset") [] hf hk,
    executor_default ⟨some body⟩ st (lit "/reset") (lit "/reset") [] hf hk, ht]
  refine ⟨?_, ?_, ?_, ?_⟩
  · simp [Outcome.transcript, getStreamingResponse_elems, Slice.append]
  · simp [Outcome.transcript, getStreamingResponse_elems, Slice.append]
  · simp [Outcome.tracked, getStreamingResponse]
  · simp [Outcome.tracked, getStreamingResponse]

/-! ### Further properties of the dispatcher and the handlers -/

/-- X1: a call of `executor` never stops the process with an index out of
range, and it ends the process exactly when the first token of the trimmed
line is `/exit`; in every other case it returns. -/
theorem X1_executor_ends_process_only_on_exit (env : Env) (st : State) (input : Str) :
    executor env st input ≠ Outcome.crashed ∧
    (executor env st input = Outcome.exited ↔
      (Fields (TrimSpace input)).head? = some (lit "/exit")) := by
  refine ⟨executor_ne_crashed env st input, executor_exited_head env st input, ?_⟩
  intro hh
  cases hf : Fields (TrimSpace input) with
  | nil => rw [hf] at hh; simp at hh
  | cons command args =>
    rw [hf] at hh
    simp only [List.head?_cons, Option.some.injEq] at hh
    subst hh
    have h0 : TrimSpace input ≠ [] := Fields_ne_nil hf
    unfold executor
    rw [if_neg h0, hf]
    dsimp only
    rw [if_neg (by decide), if_pos rfl]

set_option maxRecDepth 100000 in
/-- X2: a command that needs an argument and is given none (a usage error)
returns with every variable and the file system unchanged, whatever the
surrounding white space. -/
theorem X2_usage_errors_leave_state_unchanged (env : Env) (st : State) :
    executor env st (lit "/show") = Outcome.running st ∧
    executor env st (lit "/new") = Outcome.running st ∧
    executor env st (lit "/add") = Outcome.running st ∧
    executor env st (lit "/edit") = Outcome.running st ∧
    executor env st (lit "/save") = Outcome.running st ∧
    executor env st (lit "/load") = Outcome.running st ∧
    executor env st (lit "  /undo \n") = Outcome.running st ∧
    executor env st (lit "/search") = Outcome.running st ∧
    executor env st (lit "/image") = Outcome.running st ∧
    executor env st (lit "/change_model") = Outcome.running st :=
  ⟨rfl, rfl, rfl, rfl, rfl, rfl, rfl, rfl, rfl, rfl⟩

/-- X3: when the file cannot be read, or its content is not well-formed JSON,
`handleLoadCommand` reports an error and leaves the transcript and every
other variable unchanged. -/
theorem X3_load_of_unreadable_or_malformed_file_changes_nothing (st : State) (f : Str)
    (h : st.fs.readFile f = none ∨
      ∃ data, st.fs.readFile f = some data ∧ parseJSON data = none) :
    handleLoadCommand st f = st ∧ loadReportsError st f = true := by
  rcases h with h | ⟨data, h, hp⟩
  · simp [handleLoadCommand, loadReportsError, h]
  · simp [handleLoadCommand, loadReportsError, h, UnmarshalHistory, hp]

/-- Witness for X3: the file holds `[{"role": "user"`, cut off in the middle. -/
theorem X3_load_of_unreadable_or_malformed_file_changes_nothing_witness :
    (handleLoadCommand
      (State.init ⟨fun q => if q = lit "h.json" then
          some (Node.file (lit "[\x7b\"role\": \"user\"") true true) else none, fun _ => true⟩)
      (lit "h.json")).chatHistory.elems = [⟨lit "system", SYSTEM_PROMPT⟩] :=
  congrArg (fun s : State => s.chatHistory.elems)
    (X3_load_of_unreadable_or_malformed_file_changes_nothing
      (State.init ⟨fun q => if q = lit "h.json" then
          some (Node.file (lit "[\x7b\"role\": \"user\"") true true) else none, fun _ => true⟩)
      (lit "h.json") (Or.inr ⟨lit "[\x7b\"role\": \"user\"", rfl, rfl⟩)).1

/-- X4: `handleNewCommand` on a path that exists writes nothing and changes
no variable; on a path that does not exist and has no dot, or whose text
after the last dot is not a key of `fileTemplates`, it writes the empty
content. -/
theorem X4_new_existing_untouched_unknown_extension_empty (st : State) (p : Str) :
    ((st.fs.stat p).isSome = true → handleNewCommand st p = st) ∧
    (st.fs.stat p = none → fileTemplates ((Split 0x2E p).getLastD []) = [] →
      ∀ fs1, st.fs.writeFile p [] = some fs1 →
        (handleNewCommand st p).fs = fs1 ∧ (handleNewCommand st p).fs.content p = some []) := by
  constructor
  · intro h
    unfold handleNewCommand
    cases hs : st.fs.stat p with
    | none => simp [hs] at h
    | some b => rfl
  · intro hs ht fs1 hw
    have htemplate : (if (Split 0x2E p).length > 1 then
        fileTemplates ((Split 0x2E p).getLastD []) else []) = [] := by
      split_ifs
      · exact ht
      · rfl
    unfold handleNewCommand
    rw [hs]
    dsimp only
    rw [htemplate, hw]
    exact ⟨rfl, writeFile_content hw⟩

/-- Witness for X4: `foo.xyz` does not exist and is created empty. -/
theorem X4_new_existing_untouched_unknown_extension_empty_witness :
    (handleNewCommand (State.init FS.empty) (lit "foo.xyz")).fs.content (lit "foo.xyz")
      = some [] :=
  ((X4_new_existing_untouched_unknown_extension_empty (State.init FS.empty) (lit "foo.xyz")).2
    (by decide) (by decide) _ rfl).2

end Omni
